import Mathlib

set_option linter.unusedVariables false
set_option linter.unreachableTactic false
set_option linter.unusedTactic false
set_option linter.unnecessarySeqFocus false

/-!
# Verification of the LLCP PDU codec (`nfc/llcp/pdu.py`)

A shallow embedding of the protocol-data-unit codec: the TLV parameter
sub-codec (`Parameter.decode` / `Parameter.encode`), the common and numbered
header codecs, the per-variant decoders and encoders, and the public
`decode` / `encode` entry points, together with theorems settling the
specification's claims about them.

Conventions of the embedding:

* Buffers are `List Nat`, one element per byte.  A byte is read with
  `List.getD _ _ 0` after an explicit bounds check mirroring
  `struct.unpack_from`'s "requires a buffer of at least n bytes" error;
  Python's clamping slice `data[a:b]` is `(data.drop a).take (b - a)`.
* `size` parameters are `Int`, because the source's loop arithmetic
  (`size = size - 2 - pdu_size` in the aggregated-frame loop) can go
  negative before the loop guard stops it.
* Every fallible operation returns `Except PyErr _`; `PyErr` distinguishes
  the exception classes the source can raise (`DecodeError`, `EncodeError`)
  from `struct.error`, `TypeError` and `AttributeError`, which escape from
  slips in the source and are not part of its intended error taxonomy.
* `log.warn` / `log.debug` diagnostics have no effect on results and are
  dropped (a comment marks each site).
-/

/-- The exception classes observable from the codec: its two declared error
classes plus the built-in exception types that some code paths actually
raise (`struct.error` from `struct.pack`/`struct.unpack_from`, `TypeError`
and `AttributeError` from Python-level slips). -/
inductive PyErr where
  | decodeError (msg : String)
  | encodeError (msg : String)
  | structError (msg : String)
  | typeError (msg : String)
  | attributeError (msg : String)
deriving DecidableEq, Repr

/-- The dynamically-typed third component of a decoded TLV triple
`(T, L, V)`: an int, a pair of ints, a byte string, or the
`(transaction-id, service-name-bytes)` pair of an SDREQ. -/
inductive TLV where
  | num (n : Nat)
  | pair (a b : Nat)
  | raw (bs : List Nat)
  | req (tid : Nat) (sn : List Nat)
deriving DecidableEq, Repr

/-- The protocol-data-unit values: one constructor per concrete subclass of
`ProtocolDataUnit` in the source, carrying exactly the fields that class
stores.  `information.ns` is an `Option` because the source stores `None`
there for a constructed-but-unnumbered value; `serviceNameLookup` carries
the `sdreq`/`sdres` lists appended during decoding; `unknown` mirrors
`UnknownProtocolDataUnit` (data-dependent `ptype` plus raw payload). -/
inductive PDU where
  | symmetry (dsap ssap : Nat)
  | parameterExchange (dsap ssap : Nat) (version : Nat × Nat) (miu wks lto lsc dpc : Nat)
  | aggregatedFrame (dsap ssap : Nat) (aggregate : List PDU)
  | unnumberedInformation (dsap ssap : Nat) (data : List Nat)
  | connect (dsap ssap miu rw : Nat) (sn : List Nat)
  | disconnect (dsap ssap : Nat)
  | connectionComplete (dsap ssap miu rw : Nat)
  | disconnectedMode (dsap ssap reason : Nat)
  | frameReject (dsap ssap flags ptype ns nr vs vr vsa vra : Nat)
  | serviceNameLookup (dsap ssap : Nat) (sdreq : List (Nat × List Nat)) (sdres : List (Nat × Nat))
  | dataProtectionSetup (dsap ssap : Nat) (ecpk rn : Option (List Nat))
  | information (dsap ssap : Nat) (ns : Option Nat) (nr : Nat) (data : List Nat)
  | receiveReady (dsap ssap nr : Nat)
  | receiveNotReady (dsap ssap nr : Nat)
  | unknown (ptype dsap ssap : Nat) (payload : List Nat)

/-- `struct.pack('!B', x)`: one unsigned byte, `struct.error` out of range. -/
def packB (x : Nat) : Except PyErr (List Nat) :=
  if x ≤ 255 then .ok [x]
  else .error (.structError "ubyte format requires 0 <= number <= 255")

/-- `struct.pack('!H', x)`: big-endian unsigned 16-bit word, `struct.error`
out of range. -/
def packH (x : Nat) : Except PyErr (List Nat) :=
  if x ≤ 65535 then .ok [x / 256, x % 256]
  else .error (.structError "ushort format requires 0 <= number <= 65535")

/-- `Parameter.decode(data, offset, size)` (pdu.py lines 35-85).  Reads the
`(T, L)` bytes, checks `L <= size - 2`, then interprets the value per `T`.
A type code outside 1..11 matches no branch of the `if` chain, so the
Python function falls off its end and returns `None`; that is modelled as
`.ok none`.  The `log.warn` calls for reserved bits / zero lengths do not
affect the result and are dropped. -/
def Parameter.decode (data : List Nat) (offset : Nat) (size : Int) :
    Except PyErr (Option (Nat × Nat × TLV)) :=
  if offset + 2 ≤ data.length then
    let T := data.getD offset 0
    let L := data.getD (offset + 1) 0
    if (L : Int) > size - 2 then
      .error (.decodeError ("TLV length error for T=" ++ toString T))
    else if T = 1 then  -- VERSION
      if L = 1 then
        if offset + 3 ≤ data.length then
          let version := data.getD (offset + 2) 0
          .ok (some (T, L, .pair (version >>> 4) (version &&& 15)))
        else .error (.structError "unpack_from requires a buffer")
      else .error (.decodeError "VERSION TLV length error")
    else if T = 2 then  -- MIUX
      if L = 2 then
        if offset + 4 ≤ data.length then
          let miux := data.getD (offset + 2) 0 * 256 + data.getD (offset + 3) 0
          -- reserved bits miux &&& 0xF800 only warn
          .ok (some (T, L, .num (miux &&& 0x07FF)))
        else .error (.structError "unpack_from requires a buffer")
      else .error (.decodeError "MIUX TLV length error")
    else if T = 3 then  -- WKS
      if L = 2 then
        if offset + 4 ≤ data.length then
          let wks := data.getD (offset + 2) 0 * 256 + data.getD (offset + 3) 0
          .ok (some (T, L, .num wks))
        else .error (.structError "unpack_from requires a buffer")
      else .error (.decodeError "WKS TLV length error")
    else if T = 4 then  -- LTO
      if L = 1 then
        if offset + 3 ≤ data.length then
          .ok (some (T, L, .num (data.getD (offset + 2) 0)))
        else .error (.structError "unpack_from requires a buffer")
      else .error (.decodeError "LTO TLV length error")
    else if T = 5 then  -- RW; reserved upper nibble only warns
      if L = 1 then
        if offset + 3 ≤ data.length then
          .ok (some (T, L, .num (data.getD (offset + 2) 0)))
        else .error (.structError "unpack_from requires a buffer")
      else .error (.decodeError "RW TLV length error")
    else if T = 6 then  -- SN; zero length only warns, value is a plain slice
      .ok (some (T, L, .raw ((data.drop (offset + 2)).take L)))
    else if T = 7 then  -- OPT; reserved bits only warn
      if L = 1 then
        if offset + 3 ≤ data.length then
          .ok (some (T, L, .num (data.getD (offset + 2) 0)))
        else .error (.structError "unpack_from requires a buffer")
      else .error (.decodeError "OPT TLV length error")
    else if T = 8 then  -- SDREQ: struct format '!B%ds' % (L-1)
      if L = 0 then .error (.structError "bad char in struct format")
      else if offset + 2 + L ≤ data.length then
        .ok (some (T, L, .req (data.getD (offset + 2) 0) ((data.drop (offset + 3)).take (L - 1))))
      else .error (.structError "unpack_from requires a buffer")
    else if T = 9 then  -- SDRES
      if L = 2 then
        if offset + 4 ≤ data.length then
          .ok (some (T, L, .pair (data.getD (offset + 2) 0) (data.getD (offset + 3) 0)))
        else .error (.structError "unpack_from requires a buffer")
      else .error (.decodeError "SDRES TLV length error")
    else if T = 10 then  -- ECPK; zero/odd length only warns
      .ok (some (T, L, .raw ((data.drop (offset + 2)).take L)))
    else if T = 11 then  -- RN; zero length only warns
      .ok (some (T, L, .raw ((data.drop (offset + 2)).take L)))
    else
      .ok none  -- no branch matches: the source returns None
  else .error (.structError "unpack_from requires a buffer")

/-- `Parameter.encode(T, V)` (pdu.py lines 87-107).  The three `raise
EncodeError(...)` sites build their message as `"... %r" % (T, len(V), V)`
— a single conversion specifier applied to a 3-tuple — so evaluating the
message raises `TypeError: not all arguments converted during string
formatting` before any `EncodeError` exists; the unknown-type-code branch
additionally evaluates `len(V)` first, which raises `TypeError` already
when `V` is an int. -/
def Parameter.encode (T : Nat) (V : TLV) : Except PyErr (List Nat) :=
  if T = 1 then  -- VERSION
    match V with
    | .pair a b =>
      match packB (a <<< 4 ||| b) with
      | .ok vb => .ok ([T, 1] ++ vb)
      | .error e => .error e
    | _ => .error (.typeError "value is not subscriptable")
  else if T = 4 ∨ T = 5 ∨ T = 7 then  -- LTO, RW, OPT
    match V with
    | .num v =>
      match packB v with
      | .ok vb => .ok ([T, 1] ++ vb)
      | .error e => .error e
    | _ => .error (.typeError "an integer is required")
  else if T = 2 ∨ T = 3 then  -- MIUX, WKS
    match V with
    | .num v =>
      match packH v with
      | .ok vb => .ok ([T, 2] ++ vb)
      | .error e => .error e
    | _ => .error (.typeError "an integer is required")
  else if T = 6 ∨ T = 10 ∨ T = 11 then  -- SN, ECPK, RN
    match V with
    | .raw bs =>
      if bs.length > 255 then
        .error (.typeError "not all arguments converted during string formatting")
      else .ok ([T, bs.length] ++ bs)
    | _ => .error (.typeError "object has no len")
  else if T = 8 then  -- SDREQ
    match V with
    | .req tid sn =>
      if sn.length > 254 then
        .error (.typeError "not all arguments converted during string formatting")
      else
        match packB tid with
        | .ok tb => .ok ([T, 1 + sn.length] ++ tb ++ sn)
        | .error e => .error e
    | _ => .error (.typeError "value is not subscriptable")
  else if T = 9 then  -- SDRES
    match V with
    | .pair tid sap =>
      match packB tid with
      | .ok tb =>
        match packB sap with
        | .ok sb => .ok ([T, 2] ++ tb ++ sb)
        | .error e => .error e
      | .error e => .error e
    | _ => .error (.typeError "value is not subscriptable")
  else  -- unknown type code: raise EncodeError("unknown TLV %r" % (T, len(V), V))
    match V with
    | .num _ => .error (.typeError "object of type int has no len")
    | _ => .error (.typeError "not all arguments converted during string formatting")

/-- `ProtocolDataUnit.decode_header` (pdu.py lines 118-122): two header
bytes give `(dsap, ssap) = (byte0 >> 2, byte1 & 63)`. -/
def ProtocolDataUnit.decode_header (data : List Nat) (offset : Nat) (size : Int) :
    Except PyErr (Nat × Nat) :=
  if size < 2 then .error (.decodeError "insufficient pdu header bytes")
  else if offset + 2 ≤ data.length then
    .ok (data.getD offset 0 >>> 2, data.getD (offset + 1) 0 &&& 63)
  else .error (.structError "unpack_from requires a buffer")

/-- `ProtocolDataUnit.encode_header` (pdu.py lines 124-127): range-checks
the addresses, then packs `dsap<<10 | ptype<<6 | ssap` big-endian. -/
def ProtocolDataUnit.encode_header (dsap ptype ssap : Nat) : Except PyErr (List Nat) :=
  if dsap > 63 then .error (.encodeError "DSAP out of bounds")
  else if ssap > 63 then .error (.encodeError "SSAP out of bounds")
  else packH (dsap <<< 10 ||| ptype <<< 6 ||| ssap)

/-- `NumberedProtocolDataUnit.decode_header` (pdu.py lines 144-148): three
header bytes; the third splits into `(sequence >> 4, sequence & 15)`. -/
def NumberedProtocolDataUnit.decode_header (data : List Nat) (offset : Nat) (size : Int) :
    Except PyErr (Nat × Nat × Nat × Nat) :=
  if size < 3 then .error (.decodeError "numbered pdu header length error")
  else if offset + 3 ≤ data.length then
    .ok (data.getD offset 0 >>> 2, data.getD (offset + 1) 0 &&& 63,
         data.getD (offset + 2) 0 >>> 4, data.getD (offset + 2) 0 &&& 15)
  else .error (.structError "unpack_from requires a buffer")

/-- Python truthiness of the `ns` attribute (`None` and `0` are falsy). -/
def nsTruthy : Option Nat → Bool
  | none => false
  | some n => n ≠ 0

/-- `NumberedProtocolDataUnit.encode_header` (pdu.py lines 150-156):
range checks (`self.ns and self.ns > 15` skips the check for falsy `ns`),
then the header word plus `(ns<<4 if ns else 0) | nr`. -/
def NumberedProtocolDataUnit.encode_header (dsap ptype ssap : Nat) (ns : Option Nat) (nr : Nat) :
    Except PyErr (List Nat) :=
  if dsap > 63 then .error (.encodeError "DSAP out of bounds")
  else if ssap > 63 then .error (.encodeError "SSAP out of bounds")
  else if nr > 15 then .error (.encodeError "N(R) out of bounds")
  else if nsTruthy ns ∧ ns.getD 0 > 15 then .error (.encodeError "N(S) out of bounds")
  else
    match packH (dsap <<< 10 ||| ptype <<< 6 ||| ssap) with
    | .ok hw =>
      match packB ((if nsTruthy ns then ns.getD 0 <<< 4 else 0) ||| nr) with
      | .ok sb => .ok (hw ++ sb)
      | .error e => .error e
    | .error e => .error e

/-- The generic shape of the per-variant TLV loops (`while size >= 2:`
followed by `Parameter.decode` and a per-variant update of the object's
attributes, pdu.py e.g. lines 214-222).  When `Parameter.decode` returns
`None` (unknown TLV type code) the caller's tuple unpacking `T, L, V = ...`
raises `TypeError`. -/
def tlvLoop (upd : σ → Nat → Nat → TLV → σ) (data : List Nat) (offset : Nat) (size : Int)
    (st : σ) : Except PyErr σ :=
  if 2 ≤ size then
    match Parameter.decode data offset size with
    | .error e => .error e
    | .ok none => .error (.typeError "NoneType object is not iterable")
    | .ok (some (T, L, V)) =>
        tlvLoop upd data (offset + 2 + L) (size - 2 - (L : Int)) (upd st T L V)
  else .ok st
termination_by size.toNat
decreasing_by
  omega

/-- `Symmetry.decode` (pdu.py lines 174-180). -/
def Symmetry.decode (data : List Nat) (offset : Nat) (size : Int) : Except PyErr PDU :=
  match ProtocolDataUnit.decode_header data offset size with
  | .error e => .error e
  | .ok (dsap, ssap) =>
    if dsap ≠ 0 then .error (.decodeError "SYMM PDU DSAP must be zero")
    else if ssap ≠ 0 then .error (.decodeError "SYMM PDU SSAP must be zero")
    else if 3 ≤ size then .error (.decodeError "SYMM PDU DATA must be empty")
    else .ok (.symmetry dsap ssap)

/-- The attribute set the `ParameterExchange` constructor initializes
(pdu.py lines 197-205), with its default values. -/
structure PaxFields where
  version : Nat × Nat := (1, 0)
  miu : Nat := 128
  wks : Nat := 3
  lto : Nat := 100
  lsc : Nat := 3
  dpc : Nat := 0
deriving DecidableEq, Repr

/-- The `elif` chain of `ParameterExchange.decode`'s TLV loop (pdu.py lines
216-221): VERSION, MIUX (`miu = 128 + V`), WKS, LTO (`lto = V * 10`) and
OPT (`lsc, dpc = V & 3, V >> 2 & 1`) update the object; any other decoded
TLV is only logged. -/
def ParameterExchange.update (f : PaxFields) (T _L : Nat) (V : TLV) : PaxFields :=
  if T = 1 then match V with | .pair a b => { f with version := (a, b) } | _ => f
  else if T = 2 then match V with | .num v => { f with miu := 128 + v } | _ => f
  else if T = 3 then match V with | .num v => { f with wks := v } | _ => f
  else if T = 4 then match V with | .num v => { f with lto := v * 10 } | _ => f
  else if T = 7 then
    match V with | .num v => { f with lsc := v &&& 3, dpc := (v >>> 2) &&& 1 } | _ => f
  else f  -- log.debug("unknown TLV %r in PAX PDU", ...)

/-- `ParameterExchange.decode` (pdu.py lines 207-223). -/
def ParameterExchange.decode (data : List Nat) (offset : Nat) (size : Int) : Except PyErr PDU :=
  match ProtocolDataUnit.decode_header data offset size with
  | .error e => .error e
  | .ok (dsap, ssap) =>
    if dsap ≠ 0 then .error (.decodeError "PAX PDU DSAP must be zero")
    else if ssap ≠ 0 then .error (.decodeError "PAX PDU SSAP must be zero")
    else
      match tlvLoop ParameterExchange.update data (offset + 2) (size - 2) {} with
      | .error e => .error e
      | .ok f => .ok (.parameterExchange dsap ssap f.version f.miu f.wks f.lto f.lsc f.dpc)

/-- `UnnumberedInformation.decode` (pdu.py lines 341-345): the payload is
the clamping slice `data[offset+2 : offset+size]`. -/
def UnnumberedInformation.decode (data : List Nat) (offset : Nat) (size : Int) :
    Except PyErr PDU :=
  match ProtocolDataUnit.decode_header data offset size with
  | .error e => .error e
  | .ok (dsap, ssap) =>
    .ok (.unnumberedInformation dsap ssap ((data.drop (offset + 2)).take ((size - 2).toNat)))

/-- The attribute set the `Connect` constructor initializes
(pdu.py lines 363-367). -/
structure ConnectFields where
  miu : Nat := 128
  rw : Nat := 1
  sn : List Nat := []
deriving DecidableEq, Repr

/-- The `elif` chain of `Connect.decode`'s TLV loop (pdu.py lines 376-379).
`sn = str(V)` keeps the raw service-name bytes (Python 2 `str` is the byte
string type). -/
def Connect.update (f : ConnectFields) (T _L : Nat) (V : TLV) : ConnectFields :=
  if T = 2 then match V with | .num v => { f with miu := 128 + v } | _ => f
  else if T = 5 then match V with | .num v => { f with rw := v } | _ => f
  else if T = 6 then match V with | .raw bs => { f with sn := bs } | _ => f
  else f  -- log.debug("unknown TLV %r in CONNECT PDU", ...)

/-- `Connect.decode` (pdu.py lines 369-381): no address restrictions. -/
def Connect.decode (data : List Nat) (offset : Nat) (size : Int) : Except PyErr PDU :=
  match ProtocolDataUnit.decode_header data offset size with
  | .error e => .error e
  | .ok (dsap, ssap) =>
    match tlvLoop Connect.update data (offset + 2) (size - 2) {} with
    | .error e => .error e
    | .ok f => .ok (.connect dsap ssap f.miu f.rw f.sn)

/-- `Disconnect.decode` (pdu.py lines 413-416). -/
def Disconnect.decode (data : List Nat) (offset : Nat) (size : Int) : Except PyErr PDU :=
  match ProtocolDataUnit.decode_header data offset size with
  | .error e => .error e
  | .ok (dsap, ssap) => .ok (.disconnect dsap ssap)

/-- The attribute set the `ConnectionComplete` constructor initializes
(pdu.py lines 433-436). -/
structure CcFields where
  miu : Nat := 128
  rw : Nat := 1
deriving DecidableEq, Repr

/-- The `elif` chain of `ConnectionComplete.decode`'s TLV loop
(pdu.py lines 445-447). -/
def ConnectionComplete.update (f : CcFields) (T _L : Nat) (V : TLV) : CcFields :=
  if T = 2 then match V with | .num v => { f with miu := 128 + v } | _ => f
  else if T = 5 then match V with | .num v => { f with rw := v } | _ => f
  else f  -- log.debug("unknown TLV %r in CC PDU", ...)

/-- `ConnectionComplete.decode` (pdu.py lines 438-449). -/
def ConnectionComplete.decode (data : List Nat) (offset : Nat) (size : Int) : Except PyErr PDU :=
  match ProtocolDataUnit.decode_header data offset size with
  | .error e => .error e
  | .ok (dsap, ssap) =>
    match tlvLoop ConnectionComplete.update data (offset + 2) (size - 2) {} with
    | .error e => .error e
    | .ok f => .ok (.connectionComplete dsap ssap f.miu f.rw)

/-- `DisconnectedMode.decode` (pdu.py lines 478-483): total size must be
exactly 3; the reason byte is read at `offset+2`. -/
def DisconnectedMode.decode (data : List Nat) (offset : Nat) (size : Int) : Except PyErr PDU :=
  if size ≠ 3 then .error (.decodeError "DM PDU length error")
  else
    match ProtocolDataUnit.decode_header data offset size with
    | .error e => .error e
    | .ok (dsap, ssap) =>
      if offset + 3 ≤ data.length then
        .ok (.disconnectedMode dsap ssap (data.getD (offset + 2) 0))
      else .error (.structError "unpack_from requires a buffer")

/-- `FrameReject.decode` (pdu.py lines 525-534): total size must be exactly
6.  The source then unpacks its four nibble-pair bytes with
`struct.unpack_from('!BBBB', data, offset)` — i.e. starting at the PDU's
first header byte, not at `offset+2` — so `b0`/`b1` are the two header
bytes and the last two payload bytes are never read. -/
def FrameReject.decode (data : List Nat) (offset : Nat) (size : Int) : Except PyErr PDU :=
  if size ≠ 6 then .error (.decodeError "FRMR PDU length error")
  else
    match ProtocolDataUnit.decode_header data offset size with
    | .error e => .error e
    | .ok (dsap, ssap) =>
      if offset + 4 ≤ data.length then
        let b0 := data.getD offset 0
        let b1 := data.getD (offset + 1) 0
        let b2 := data.getD (offset + 2) 0
        let b3 := data.getD (offset + 3) 0
        .ok (.frameReject dsap ssap (b0 >>> 4) (b0 &&& 15) (b1 >>> 4) (b1 &&& 15)
              (b2 >>> 4) (b2 &&& 15) (b3 >>> 4) (b3 &&& 15))
      else .error (.structError "unpack_from requires a buffer")

/-- The `sdreq`/`sdres` lists the `ServiceNameLookup` constructor
initializes empty (pdu.py lines 573-576). -/
structure SnlFields where
  sdreq : List (Nat × List Nat) := []
  sdres : List (Nat × Nat) := []
deriving DecidableEq, Repr

/-- The body of `ServiceNameLookup.decode`'s TLV loop (pdu.py lines
585-587): two separate `if` statements (the `else` belongs to the second),
so an SDREQ is appended and then also hits the `log.debug` branch. -/
def ServiceNameLookup.update (f : SnlFields) (T _L : Nat) (V : TLV) : SnlFields :=
  let f := if T = 8 then
    match V with | .req tid sn => { f with sdreq := f.sdreq ++ [(tid, sn)] } | _ => f
  else f
  if T = 9 then
    match V with | .pair tid sap => { f with sdres := f.sdres ++ [(tid, sap)] } | _ => f
  else f  -- log.debug("unknown TLV %r in SNL PDU", ...)

/-- `ServiceNameLookup.decode` (pdu.py lines 578-589). -/
def ServiceNameLookup.decode (data : List Nat) (offset : Nat) (size : Int) : Except PyErr PDU :=
  match ProtocolDataUnit.decode_header data offset size with
  | .error e => .error e
  | .ok (dsap, ssap) =>
    match tlvLoop ServiceNameLookup.update data (offset + 2) (size - 2) {} with
    | .error e => .error e
    | .ok f => .ok (.serviceNameLookup dsap ssap f.sdreq f.sdres)

/-- The `ecpk`/`rn` attributes the `DataProtectionSetup` constructor
initializes to `None` (pdu.py lines 613-616). -/
structure DpsFields where
  ecpk : Option (List Nat) := none
  rn : Option (List Nat) := none
deriving DecidableEq, Repr

/-- The `elif` chain of `DataProtectionSetup.decode`'s TLV loop
(pdu.py lines 624-627). -/
def DataProtectionSetup.update (f : DpsFields) (T _L : Nat) (V : TLV) : DpsFields :=
  if T = 10 then match V with | .raw bs => { f with ecpk := some bs } | _ => f
  else if T = 11 then match V with | .raw bs => { f with rn := some bs } | _ => f
  else f  -- log.debug("unknown TLV %r in DPS PDU", ...)

/-- `DataProtectionSetup.decode` (pdu.py lines 618-629). -/
def DataProtectionSetup.decode (data : List Nat) (offset : Nat) (size : Int) : Except PyErr PDU :=
  match ProtocolDataUnit.decode_header data offset size with
  | .error e => .error e
  | .ok (dsap, ssap) =>
    match tlvLoop DataProtectionSetup.update data (offset + 2) (size - 2) {} with
    | .error e => .error e
    | .ok f => .ok (.dataProtectionSetup dsap ssap f.ecpk f.rn)

/-- `Information.decode` (pdu.py lines 660-664): numbered header, then the
clamping slice `data[offset+3 : offset+size]` as payload. -/
def Information.decode (data : List Nat) (offset : Nat) (size : Int) : Except PyErr PDU :=
  match NumberedProtocolDataUnit.decode_header data offset size with
  | .error e => .error e
  | .ok (dsap, ssap, ns, nr) =>
    .ok (.information dsap ssap (some ns) nr ((data.drop (offset + 3)).take ((size - 3).toNat)))

/-- `ReceiveReady.decode` (pdu.py lines 685-689): a nonzero `ns` nibble
only warns; the constructed value carries `ns = None`. -/
def ReceiveReady.decode (data : List Nat) (offset : Nat) (size : Int) : Except PyErr PDU :=
  match NumberedProtocolDataUnit.decode_header data offset size with
  | .error e => .error e
  | .ok (dsap, ssap, _ns, nr) => .ok (.receiveReady dsap ssap nr)

/-- `ReceiveNotReady.decode` (pdu.py lines 703-707). -/
def ReceiveNotReady.decode (data : List Nat) (offset : Nat) (size : Int) : Except PyErr PDU :=
  match NumberedProtocolDataUnit.decode_header data offset size with
  | .error e => .error e
  | .ok (dsap, ssap, _ns, nr) => .ok (.receiveNotReady dsap ssap nr)

/-- `UnknownProtocolDataUnit.decode` (pdu.py lines 721-726).  After reading
the header it calls the constructor, whose first statement is
`super(ProtocolDataUnit, self).__init__(ptype, dsap, ssap)` — the lookup
starts *after* `ProtocolDataUnit` in the method-resolution order, so it
invokes `object.__init__` with three extra arguments, which raises
`TypeError` (the class overrides `__init__` but not `__new__`).  No
`UnknownProtocolDataUnit` instance can therefore ever be constructed. -/
def UnknownProtocolDataUnit.decode (data : List Nat) (offset : Nat) (size : Int) :
    Except PyErr PDU :=
  match ProtocolDataUnit.decode_header data offset size with
  | .error e => .error e
  | .ok (_dsap, _ssap) => .error (.typeError "object.__init__() takes no parameters")

mutual
/-- The public `decode` entry point (pdu.py lines 759-769) together with
`AggregatedFrame.decode` (lines 284-295), inlined here because the
aggregated-frame body loop recurses into `decode` for each nested PDU.
The entry point validates `offset + size <= len(data)` and `size >= 2`,
reads the 4-bit type code from the 16-bit header word without consuming
it, and dispatches through `pdu_type_map` (lines 742-757, codes 0-10 and
12-14; anything else falls back to `UnknownProtocolDataUnit`). -/
def decode (data : List Nat) (offset : Nat) (size : Int) : Except PyErr PDU :=
  if (offset : Int) + size > (data.length : Int) then
    .error (.decodeError "size bytes from offset exceed the data length")
  else if size < 2 then
    .error (.decodeError "less than two header bytes can't make a valid pdu")
  else if hb : offset + 2 ≤ data.length then
    -- ptype = (unpack_from('!H', data, offset)[0] >> 6) & 0b1111;
    -- the two checks above imply the unpack is in bounds
    let ptype := ((data.getD offset 0 * 256 + data.getD (offset + 1) 0) >>> 6) &&& 15
    if ptype = 0 then Symmetry.decode data offset size
    else if ptype = 1 then ParameterExchange.decode data offset size
    else if ptype = 2 then
      -- AggregatedFrame.decode (pdu.py lines 284-295)
      match ProtocolDataUnit.decode_header data offset size with
      | .error e => .error e
      | .ok (dsap, ssap) =>
        if dsap ≠ 0 then .error (.decodeError "AGF PDU DSAP must be zero")
        else if ssap ≠ 0 then .error (.decodeError "AGF PDU SSAP must be zero")
        else
          match AggregatedFrame.decodeBody data (offset + 2) (size - 2) with
          | .error e => .error e
          | .ok aggregate => .ok (.aggregatedFrame dsap ssap aggregate)
    else if ptype = 3 then UnnumberedInformation.decode data offset size
    else if ptype = 4 then Connect.decode data offset size
    else if ptype = 5 then Disconnect.decode data offset size
    else if ptype = 6 then ConnectionComplete.decode data offset size
    else if ptype = 7 then DisconnectedMode.decode data offset size
    else if ptype = 8 then FrameReject.decode data offset size
    else if ptype = 9 then ServiceNameLookup.decode data offset size
    else if ptype = 10 then DataProtectionSetup.decode data offset size
    else if ptype = 12 then Information.decode data offset size
    else if ptype = 13 then ReceiveReady.decode data offset size
    else if ptype = 14 then ReceiveNotReady.decode data offset size
    else UnknownProtocolDataUnit.decode data offset size
  else .error (.structError "unpack_from requires a buffer")
termination_by (data.length - offset, 1)
decreasing_by
  simp only [Prod.lex_iff]
  left
  omega
def AggregatedFrame.decodeBody (data : List Nat) (offset : Nat) (size : Int) :
    Except PyErr (List PDU) :=
  -- while size > 0: read a 2-byte length, decode that many bytes as a
  -- nested PDU through the entry point, advance by 2 + pdu_size
  if 0 < size then
    if hb : offset + 2 ≤ data.length then
      let pdu_size := data.getD offset 0 * 256 + data.getD (offset + 1) 0
      match decode data (offset + 2) (pdu_size : Int) with
      | .error e => .error e
      | .ok pdu =>
        match AggregatedFrame.decodeBody data (offset + 2 + pdu_size)
            (size - 2 - (pdu_size : Int)) with
        | .error e => .error e
        | .ok rest => .ok (pdu :: rest)
    else .error (.structError "unpack_from requires a buffer")
  else .ok []
termination_by (data.length - offset, 0)
decreasing_by
  · simp only [Prod.lex_iff]
    left
    omega
  · simp only [Prod.lex_iff]
    left
    omega
end

/-- `Symmetry.encode` (pdu.py lines 182-183): just the header,
type code 0. -/
def Symmetry.encode (dsap ssap : Nat) : Except PyErr (List Nat) :=
  ProtocolDataUnit.encode_header dsap 0 ssap

/-- `ParameterExchange.encode` (pdu.py lines 225-237).  `if self.version:`
is true for every pair (tuples are truthy); `if self.miu and self.miu >
128:` reduces to `128 < miu`; `if self.lto and self.lto != 100:` is
`lto ≠ 0 ∧ lto ≠ 100`; `if self.lsc or self.dpc:` is `lsc ≠ 0 ∨ dpc ≠ 0`. -/
def ParameterExchange.encode (dsap ssap : Nat) (version : Nat × Nat)
    (miu wks lto lsc dpc : Nat) : Except PyErr (List Nat) := do
  let header ← ProtocolDataUnit.encode_header dsap 1 ssap
  let c1 ← Parameter.encode 1 (.pair version.1 version.2)
  let c2 ← if 128 < miu then Parameter.encode 2 (.num (miu - 128)) else pure []
  let c3 ← if wks ≠ 0 then Parameter.encode 3 (.num wks) else pure []
  let c4 ← if lto ≠ 0 ∧ lto ≠ 100 then Parameter.encode 4 (.num (lto / 10)) else pure []
  let c5 ← if lsc ≠ 0 ∨ dpc ≠ 0 then Parameter.encode 7 (.num (dpc <<< 2 ||| lsc)) else pure []
  return header ++ c1 ++ c2 ++ c3 ++ c4 ++ c5

/-- `UnnumberedInformation.encode` (pdu.py lines 347-348). -/
def UnnumberedInformation.encode (dsap ssap : Nat) (data : List Nat) :
    Except PyErr (List Nat) := do
  let header ← ProtocolDataUnit.encode_header dsap 3 ssap
  return header ++ data

/-- `Connect.encode` (pdu.py lines 383-391): MIUX when `miu > 128`, RW
when `rw` is truthy and not 1, SN when nonempty. -/
def Connect.encode (dsap ssap miu rw : Nat) (sn : List Nat) : Except PyErr (List Nat) := do
  let header ← ProtocolDataUnit.encode_header dsap 4 ssap
  let c1 ← if 128 < miu then Parameter.encode 2 (.num (miu - 128)) else pure []
  let c2 ← if rw ≠ 0 ∧ rw ≠ 1 then Parameter.encode 5 (.num rw) else pure []
  let c3 ← if sn ≠ [] then Parameter.encode 6 (.raw sn) else pure []
  return header ++ c1 ++ c2 ++ c3

/-- `Disconnect.encode` (pdu.py lines 418-419). -/
def Disconnect.encode (dsap ssap : Nat) : Except PyErr (List Nat) :=
  ProtocolDataUnit.encode_header dsap 5 ssap

/-- `ConnectionComplete.encode` (pdu.py lines 451-457). -/
def ConnectionComplete.encode (dsap ssap miu rw : Nat) : Except PyErr (List Nat) := do
  let header ← ProtocolDataUnit.encode_header dsap 6 ssap
  let c1 ← if 128 < miu then Parameter.encode 2 (.num (miu - 128)) else pure []
  let c2 ← if rw ≠ 0 ∧ rw ≠ 1 then Parameter.encode 5 (.num rw) else pure []
  return header ++ c1 ++ c2

/-- `DisconnectedMode.encode` (pdu.py lines 485-486). -/
def DisconnectedMode.encode (dsap ssap reason : Nat) : Except PyErr (List Nat) := do
  let header ← ProtocolDataUnit.encode_header dsap 7 ssap
  let rb ← packB reason
  return header ++ rb

/-- `FrameReject.encode` (pdu.py lines 551-555).  Note that the
`FrameReject` constructor (lines 513-517) first sets `self.ptype = 0b1000`
through the base class and then immediately overwrites it with its `ptype`
argument — the *rejected* PDU's type code — so `encode_header` emits that
value in the header's type-code field, not 0b1000. -/
def FrameReject.encode (dsap ssap flags ptype ns nr vs vr vsa vra : Nat) :
    Except PyErr (List Nat) := do
  let header ← ProtocolDataUnit.encode_header dsap ptype ssap
  let b0 ← packB (flags <<< 4 ||| ptype)
  let b1 ← packB (ns <<< 4 ||| nr)
  let b2 ← packB (vs <<< 4 ||| vr)
  let b3 ← packB (vsa <<< 4 ||| vra)
  return header ++ b0 ++ b1 ++ b2 ++ b3

/-- The `for sdres in self.sdres:` loop of `ServiceNameLookup.encode`
(pdu.py lines 593-594). -/
def ServiceNameLookup.encodeSdres : List (Nat × Nat) → Except PyErr (List Nat)
  | [] => .ok []
  | (tid, sap) :: rest =>
    match Parameter.encode 9 (.pair tid sap) with
    | .error e => .error e
    | .ok c =>
      match ServiceNameLookup.encodeSdres rest with
      | .error e => .error e
      | .ok r => .ok (c ++ r)

/-- The `for sdreq in self.sdreq:` loop of `ServiceNameLookup.encode`
(pdu.py lines 595-596). -/
def ServiceNameLookup.encodeSdreq : List (Nat × List Nat) → Except PyErr (List Nat)
  | [] => .ok []
  | (tid, sn) :: rest =>
    match Parameter.encode 8 (.req tid sn) with
    | .error e => .error e
    | .ok c =>
      match ServiceNameLookup.encodeSdreq rest with
      | .error e => .error e
      | .ok r => .ok (c ++ r)

/-- `ServiceNameLookup.encode` (pdu.py lines 591-597): all SDRES TLVs
first, then all SDREQ TLVs. -/
def ServiceNameLookup.encode (dsap ssap : Nat) (sdreq : List (Nat × List Nat))
    (sdres : List (Nat × Nat)) : Except PyErr (List Nat) := do
  let header ← ProtocolDataUnit.encode_header dsap 9 ssap
  let cres ← ServiceNameLookup.encodeSdres sdres
  let creq ← ServiceNameLookup.encodeSdreq sdreq
  return header ++ cres ++ creq

/-- Python truthiness of an optional byte string: `None` and the empty
string are falsy. -/
def bytesTruthy : Option (List Nat) → Bool
  | none => false
  | some bs => !bs.isEmpty

/-- `DataProtectionSetup.encode` (pdu.py lines 631-637): `if self.ecpk:`
and `if self.rn:` skip `None` *and* empty byte strings. -/
def DataProtectionSetup.encode (dsap ssap : Nat) (ecpk rn : Option (List Nat)) :
    Except PyErr (List Nat) := do
  let header ← ProtocolDataUnit.encode_header dsap 10 ssap
  let c1 ← if bytesTruthy ecpk then Parameter.encode 10 (.raw (ecpk.getD [])) else pure []
  let c2 ← if bytesTruthy rn then Parameter.encode 11 (.raw (rn.getD [])) else pure []
  return header ++ c1 ++ c2

/-- `Information.encode` (pdu.py lines 666-667). -/
def Information.encode (dsap ssap : Nat) (ns : Option Nat) (nr : Nat) (data : List Nat) :
    Except PyErr (List Nat) := do
  let header ← NumberedProtocolDataUnit.encode_header dsap 12 ssap ns nr
  return header ++ data

/-- `ReceiveReady.encode` (pdu.py lines 691-692): `ns` is always `None`. -/
def ReceiveReady.encode (dsap ssap nr : Nat) : Except PyErr (List Nat) :=
  NumberedProtocolDataUnit.encode_header dsap 13 ssap none nr

/-- `ReceiveNotReady.encode` (pdu.py lines 709-710). -/
def ReceiveNotReady.encode (dsap ssap nr : Nat) : Except PyErr (List Nat) :=
  NumberedProtocolDataUnit.encode_header dsap 14 ssap none nr

/-- `UnknownProtocolDataUnit.encode` (pdu.py lines 728-729), as written:
header (with the stored type code) followed by the raw payload.  Because
the class's constructor always raises (see
`UnknownProtocolDataUnit.decode`), no instance exists in the source on
which this method could run. -/
def UnknownProtocolDataUnit.encode (ptype dsap ssap : Nat) (payload : List Nat) :
    Except PyErr (List Nat) := do
  let header ← ProtocolDataUnit.encode_header dsap ptype ssap
  return header ++ payload

mutual
/-- Polymorphic dispatch of `pdu.encode()`: each variant's `encode`
method applied to its fields. -/
def pduEncode : PDU → Except PyErr (List Nat)
  | .symmetry dsap ssap => Symmetry.encode dsap ssap
  | .parameterExchange dsap ssap version miu wks lto lsc dpc =>
    ParameterExchange.encode dsap ssap version miu wks lto lsc dpc
  | .aggregatedFrame dsap ssap aggregate =>
    -- AggregatedFrame.encode (pdu.py lines 297-301)
    match ProtocolDataUnit.encode_header dsap 2 ssap with
    | .error e => .error e
    | .ok header =>
      match AggregatedFrame.encodeBody aggregate with
      | .error e => .error e
      | .ok body => .ok (header ++ body)
  | .unnumberedInformation dsap ssap data => UnnumberedInformation.encode dsap ssap data
  | .connect dsap ssap miu rw sn => Connect.encode dsap ssap miu rw sn
  | .disconnect dsap ssap => Disconnect.encode dsap ssap
  | .connectionComplete dsap ssap miu rw => ConnectionComplete.encode dsap ssap miu rw
  | .disconnectedMode dsap ssap reason => DisconnectedMode.encode dsap ssap reason
  | .frameReject dsap ssap flags ptype ns nr vs vr vsa vra =>
    FrameReject.encode dsap ssap flags ptype ns nr vs vr vsa vra
  | .serviceNameLookup dsap ssap sdreq sdres => ServiceNameLookup.encode dsap ssap sdreq sdres
  | .dataProtectionSetup dsap ssap ecpk rn => DataProtectionSetup.encode dsap ssap ecpk rn
  | .information dsap ssap ns nr data => Information.encode dsap ssap ns nr data
  | .receiveReady dsap ssap nr => ReceiveReady.encode dsap ssap nr
  | .receiveNotReady dsap ssap nr => ReceiveNotReady.encode dsap ssap nr
  | .unknown ptype dsap ssap payload => UnknownProtocolDataUnit.encode ptype dsap ssap payload
/-- The `for encoded_pdu in [pdu.encode() for pdu in self._aggregate]:`
loop of `AggregatedFrame.encode` (pdu.py lines 299-300): each nested
encoding prefixed by its 2-byte big-endian length. -/
def AggregatedFrame.encodeBody : List PDU → Except PyErr (List Nat)
  | [] => .ok []
  | pdu :: rest =>
    match pduEncode pdu with
    | .error e => .error e
    | .ok e =>
      match packH e.length with
      | .error err => .error err
      | .ok lb =>
        match AggregatedFrame.encodeBody rest with
        | .error err => .error err
        | .ok r => .ok (lb ++ e ++ r)
end

/-- The public `encode` entry point (pdu.py lines 771-775).  Its
`isinstance` check is enforced by typing here. -/
def encode (pdu : PDU) : Except PyErr (List Nat) :=
  pduEncode pdu

mutual
/-- Polymorphic dispatch of `len(pdu)`: each variant's `__len__`.  For
`UnknownProtocolDataUnit` (pdu.py lines 731-733) the method evaluates
`super(UnknownProtocolDataUnit, self).__len__()`, but neither
`ProtocolDataUnit` nor `object` defines `__len__`, so the call raises
`AttributeError` instead of returning a number. -/
def pduLen : PDU → Except PyErr Nat
  | .symmetry _ _ => .ok 2
  | .parameterExchange _ _ _version miu wks lto lsc dpc =>
    -- `(3 if self.version else 0)`: a pair is always truthy
    .ok (2 + 3 + (if 128 < miu then 4 else 0) + (if wks ≠ 0 then 4 else 0) +
      (if lto ≠ 0 ∧ lto ≠ 100 then 3 else 0) + (if lsc ≠ 0 ∨ dpc ≠ 0 then 3 else 0))
  | .aggregatedFrame _ _ aggregate =>
    match pduLenList aggregate with
    | .error e => .error e
    | .ok n => .ok (2 + n)
  | .unnumberedInformation _ _ data => .ok (2 + data.length)
  | .connect _ _ miu rw sn =>
    .ok (2 + (if 128 < miu then 4 else 0) + (if rw ≠ 0 ∧ rw ≠ 1 then 3 else 0) +
      (if sn ≠ [] then 2 + sn.length else 0))
  | .disconnect _ _ => .ok 2
  | .connectionComplete _ _ miu rw =>
    .ok (2 + (if 128 < miu then 4 else 0) + (if rw ≠ 0 ∧ rw ≠ 1 then 3 else 0))
  | .disconnectedMode _ _ _ => .ok 3
  | .frameReject _ _ _ _ _ _ _ _ _ _ => .ok 6
  | .serviceNameLookup _ _ sdreq sdres =>
    .ok (2 + sdres.length * 4 + (sdreq.map (fun q => 3 + q.2.length)).sum)
  | .dataProtectionSetup _ _ ecpk rn =>
    .ok (2 + (match ecpk with | some bs => if !bs.isEmpty then 2 + bs.length else 0 | none => 0) +
      (match rn with | some bs => if !bs.isEmpty then 2 + bs.length else 0 | none => 0))
  | .information _ _ _ _ data => .ok (3 + data.length)
  | .receiveReady _ _ _ => .ok 3
  | .receiveNotReady _ _ _ => .ok 3
  | .unknown _ _ _ _ => .error (.attributeError "super object has no attribute __len__")
/-- `sum([2+len(pdu) for pdu in self._aggregate])` in
`AggregatedFrame.__len__` (pdu.py lines 306-307), with the nested `len`
failures propagated. -/
def pduLenList : List PDU → Except PyErr Nat
  | [] => .ok 0
  | pdu :: rest =>
    match pduLen pdu with
    | .error e => .error e
    | .ok n =>
      match pduLenList rest with
      | .error e => .error e
      | .ok m => .ok (2 + n + m)
end

/-- Whether a PDU's encoding succeeds and fits the 2-byte length field of
an aggregated-frame entry. -/
def encodableLen (pdu : PDU) : Bool :=
  match pduEncode pdu with
  | .ok e => e.length ≤ 65535
  | .error _ => false

/-- Canonicity of an optional byte-string field (ECPK/RN): absent, or
nonempty and short enough for the 1-byte TLV length. -/
def canonicalOptBytes : Option (List Nat) → Bool
  | none => true
  | some bs => !bs.isEmpty && bs.length ≤ 255

/-- Canonicity of a MIU field: the default 128 (omitted on the wire) or a
value whose MIUX extension fits the 11 significant bits. -/
def canonicalMiu (miu : Nat) : Bool :=
  miu == 128 || (128 < miu && miu ≤ 2175)

/-- Canonicity of an RW field: the default 1 (omitted on the wire) or a
nonzero byte. -/
def canonicalRw (rw : Nat) : Bool :=
  rw == 1 || (2 ≤ rw && rw ≤ 255)

/-- The canonical values of each known variant: fields in range for their
wire encodings and normalized so that nothing is lost by the encoder's
default-elision and unit conversions.  `frameReject` is never canonical —
its decoder misreads its byte offsets and its constructor overwrites the
header type code, so no frame-reject value round-trips — and `unknown`
values cannot be constructed by the source at all. -/
def canonical : PDU → Bool
  | .symmetry dsap ssap => dsap == 0 && ssap == 0
  | .parameterExchange dsap ssap version miu wks lto lsc dpc =>
    dsap == 0 && ssap == 0 && version.1 ≤ 15 && version.2 ≤ 15 &&
    canonicalMiu miu && (0 < wks && wks ≤ 65535) &&
    (lto == 100 || (lto ≠ 0 && lto % 10 == 0 && lto ≤ 2550)) &&
    lsc ≤ 3 && dpc ≤ 1 && (lsc ≠ 0 || dpc ≠ 0)
  | .aggregatedFrame dsap ssap aggregate =>
    dsap == 0 && ssap == 0 &&
    aggregate.attach.all fun p => canonical p.1 && encodableLen p.1
  | .unnumberedInformation dsap ssap _data => dsap ≤ 63 && ssap ≤ 63
  | .connect dsap ssap miu rw sn =>
    dsap ≤ 63 && ssap ≤ 63 && canonicalMiu miu && canonicalRw rw && sn.length ≤ 255
  | .disconnect dsap ssap => dsap ≤ 63 && ssap ≤ 63
  | .connectionComplete dsap ssap miu rw =>
    dsap ≤ 63 && ssap ≤ 63 && canonicalMiu miu && canonicalRw rw
  | .disconnectedMode dsap ssap reason => dsap ≤ 63 && ssap ≤ 63 && reason ≤ 255
  | .frameReject _ _ _ _ _ _ _ _ _ _ => false
  | .serviceNameLookup dsap ssap sdreq sdres =>
    dsap ≤ 63 && ssap ≤ 63 &&
    sdreq.all (fun q => q.1 ≤ 255 && q.2.length ≤ 254) &&
    sdres.all (fun r => r.1 ≤ 255 && r.2 ≤ 255)
  | .dataProtectionSetup dsap ssap ecpk rn =>
    dsap ≤ 63 && ssap ≤ 63 && canonicalOptBytes ecpk && canonicalOptBytes rn
  | .information dsap ssap ns nr _data =>
    dsap ≤ 63 && ssap ≤ 63 && (match ns with | some k => k ≤ 15 | none => false) && nr ≤ 15
  | .receiveReady dsap ssap nr => dsap ≤ 63 && ssap ≤ 63 && nr ≤ 15
  | .receiveNotReady dsap ssap nr => dsap ≤ 63 && ssap ≤ 63 && nr ≤ 15
  | .unknown _ _ _ _ => false
decreasing_by
  simp_wf
  have := List.sizeOf_lt_of_mem p.2
  omega

/-! ## Bit-arithmetic helpers

The source packs and unpacks fields with `<<`, `>>`, `&` and `|`; these
lemmas convert those operations to the plain arithmetic that `omega` and
`norm_num` understand. -/

theorem and_mask15 (x : Nat) : x &&& 15 = x % 16 := by
  have h := Nat.and_pow_two_sub_one_eq_mod x 4
  norm_num at h
  exact h

theorem and_mask63 (x : Nat) : x &&& 63 = x % 64 := by
  have h := Nat.and_pow_two_sub_one_eq_mod x 6
  norm_num at h
  exact h

theorem and_mask2047 (x : Nat) : x &&& 2047 = x % 2048 := by
  have h := Nat.and_pow_two_sub_one_eq_mod x 11
  norm_num at h
  exact h

theorem and_mask3 (x : Nat) : x &&& 3 = x % 4 := by
  have h := Nat.and_pow_two_sub_one_eq_mod x 2
  norm_num at h
  exact h

theorem shr2_eq (x : Nat) : x >>> 2 = x / 4 := by
  omega

theorem shr4_eq (x : Nat) : x >>> 4 = x / 16 := by
  omega

theorem shr6_eq (x : Nat) : x >>> 6 = x / 64 := by
  omega

/-- Disjoint-bit bitwise or is addition: `a <<< k ||| b = a * 2^k + b`
when `b` fits in `k` bits. -/
theorem shiftLeft_or_eq_add (a b k : Nat) (hb : b < 2 ^ k) :
    a <<< k ||| b = a * 2 ^ k + b := by
  rw [Nat.shiftLeft_eq, Nat.mul_comm]
  exact (Nat.mul_add_lt_is_or hb a).symm

/-- The packed header word `dsap<<10 | ptype<<6 | ssap` in plain
arithmetic, for in-range fields. -/
theorem headerWord_eq (d p s : Nat) (hp : p ≤ 15) (hs : s ≤ 63) :
    d <<< 10 ||| p <<< 6 ||| s = d * 1024 + p * 64 + s := by
  have e2 : p <<< 6 = p * 64 := by omega
  have h2 : d <<< 10 ||| p <<< 6 = d * 1024 + p * 64 := by
    rw [e2, shiftLeft_or_eq_add d (p * 64) 10 (by omega)]
    omega
  have h3 : d * 1024 + p * 64 ||| s = d * 1024 + p * 64 + s := by
    have h := Nat.mul_add_lt_is_or (b := s) (show s < 2 ^ 6 by omega) (d * 16 + p)
    have h4 : 2 ^ 6 * (d * 16 + p) = d * 1024 + p * 64 := by ring
    rw [← h4, ← h]
  rw [h2, h3]

/-- Two nibbles packed into one byte, in plain arithmetic. -/
theorem nibbles_eq (a b : Nat) (hb : b ≤ 15) :
    a <<< 4 ||| b = a * 16 + b := by
  rw [shiftLeft_or_eq_add a b 4 (by omega)]
  norm_num

/-- The `encode_header` result in explicit byte form, for in-range
fields. -/
theorem encode_header_eq (d p s : Nat) (hd : d ≤ 63) (hp : p ≤ 15) (hs : s ≤ 63) :
    ProtocolDataUnit.encode_header d p s = .ok [d * 4 + p / 4, p % 4 * 64 + s] := by
  rw [ProtocolDataUnit.encode_header, headerWord_eq d p s hp hs]
  rw [if_neg (by omega), if_neg (by omega), packH, if_pos (by omega)]
  have h1 : (d * 1024 + p * 64 + s) / 256 = d * 4 + p / 4 := by omega
  have h2 : (d * 1024 + p * 64 + s) % 256 = p % 4 * 64 + s := by omega
  rw [h1, h2]

/-! ## C9: the concrete Connect encoding -/

/-- C9: Encoding a Connect value with destination address 2, source
address 32, service name `"urn:nfc:sn:snep"` and the default receive
window (1) and packet size (128) produces exactly the bytes
`09 20 06 0F` followed by the 15 ASCII bytes of the service name. -/
theorem c9_connect_encode_example :
    encode (.connect 2 32 128 1
      [117, 114, 110, 58, 110, 102, 99, 58, 115, 110, 58, 115, 110, 101, 112]) =
    .ok ([0x09, 0x20, 0x06, 0x0F] ++
      [117, 114, 110, 58, 110, 102, 99, 58, 115, 110, 58, 115, 110, 101, 112]) := by
  rfl

/-! ## C2: decoding an unmapped type code -/

/-- C2 (code bug): the buffer `02 C0 AB` carries type code 11 (unused), so
the dispatch falls back to `UnknownProtocolDataUnit`, whose constructor's
mis-targeted `super(ProtocolDataUnit, self).__init__(ptype, dsap, ssap)`
call raises `TypeError` — decode aborts instead of returning an unknown
PDU that re-encodes to the original buffer. -/
theorem c2_unknown_decode_raises_typeerror :
    decode [0x02, 0xC0, 0xAB] 0 3 = .error (.typeError "object.__init__() takes no parameters") := by
  rw [decode.eq_def]
  norm_num [UnknownProtocolDataUnit.decode, ProtocolDataUnit.decode_header, shr6_eq, shr2_eq,
    and_mask15, and_mask63]

/-! ## C3: Parameter.encode failures are TypeError, not EncodeError -/

set_option maxRecDepth 8192 in
/-- C3 (code bug): each overlong variable-length value and each unknown
type code makes `Parameter.encode` raise `TypeError` (from evaluating
`"... %r" % (T, len(V), V)` in the `raise EncodeError(...)` statement),
never an actual `EncodeError`: a 256-byte SN, a 255-byte SDREQ service
name, and the unused type code 12. -/
theorem c3_parameter_encode_raises_typeerror :
    Parameter.encode 6 (.raw (List.replicate 256 0)) =
      .error (.typeError "not all arguments converted during string formatting") ∧
    Parameter.encode 8 (.req 7 (List.replicate 255 0)) =
      .error (.typeError "not all arguments converted during string formatting") ∧
    Parameter.encode 12 (.raw []) =
      .error (.typeError "not all arguments converted during string formatting") ∧
    (∀ msg, Parameter.encode 6 (.raw (List.replicate 256 0)) ≠ .error (.encodeError msg)) := by
  refine ⟨by rfl, by rfl, by rfl, ?_⟩
  intro msg
  rw [show Parameter.encode 6 (.raw (List.replicate 256 0)) =
    .error (.typeError "not all arguments converted during string formatting") from rfl]
  simp

/-! ## C4: an unrecognized TLV type code aborts decoding -/

/-- C4 (code bug): a Parameter Exchange body containing a TLV whose type
code (12) is outside the codec's 1..11 makes `Parameter.decode` fall off
its `if` chain and return `None`; the loop's `T, L, V = Parameter.decode(...)`
unpacking then raises `TypeError`, aborting decode instead of skipping the
TLV. -/
theorem c4_unknown_tlv_aborts_decode :
    decode [0x00, 0x40, 12, 0] 0 4 = .error (.typeError "NoneType object is not iterable") := by
  rw [decode.eq_def]
  norm_num [ParameterExchange.decode, ProtocolDataUnit.decode_header, shr6_eq, shr2_eq,
    and_mask15, and_mask63]
  rw [tlvLoop.eq_def]
  norm_num [Parameter.decode]

/-! ## C5: FrameReject.decode misreads its offsets -/

/-- C5 (code bug): decoding the frame-reject buffer `06 01 12 34 56 78`
(header `dsap=1, ptype=8, ssap=1`, payload `12 34 56 78`).  The size-6
check passes, but the four nibble-pair bytes are unpacked at `offset`, not
`offset+2`: the result takes flags/ptype from header byte `06`, N(S)/N(R)
from header byte `01`, V(S)/V(R) from payload byte `12` and V(SA)/V(RA)
from payload byte `34` — not the claimed nibbles of the four payload bytes
`12 34 56 78`, which would give `(1,2,3,4,5,6,7,8)`. -/
theorem c5_frmr_decode_misreads_offsets :
    decode [0x06, 0x01, 0x12, 0x34, 0x56, 0x78] 0 6 =
      .ok (.frameReject 1 1 0 6 0 1 1 2 3 4) ∧
    ((0, 6, 0, 1, 1, 2, 3, 4) : Nat × Nat × Nat × Nat × Nat × Nat × Nat × Nat) ≠
      (1, 2, 3, 4, 5, 6, 7, 8) := by
  constructor
  · rw [decode.eq_def]
    norm_num [FrameReject.decode, ProtocolDataUnit.decode_header, shr6_eq, shr2_eq, shr4_eq,
      and_mask15, and_mask63]
  · simp

/-! ## C6: UnknownProtocolDataUnit.__len__ raises -/

/-- C6 (code bug): for an unknown-variant value with type code 11 and a
1-byte payload, the `__len__` computation raises `AttributeError` (it
calls `super(...).__len__()`, but no base class defines `__len__`), while
the `encode` method as written would produce 3 bytes; the spec's length
consistency cannot hold for this variant. -/
theorem c6_unknown_len_raises :
    pduLen (.unknown 11 0 0 [5]) = .error (.attributeError "super object has no attribute __len__") ∧
    UnknownProtocolDataUnit.encode 11 0 0 [5] = .ok [0x02, 0xC0, 0x05] ∧
    pduLen (.information 1 2 (some 3) 4 [9, 9]) = .ok 5 ∧
    encode (.information 1 2 (some 3) 4 [9, 9]) = .ok [0x07, 0x02, 0x34, 9, 9] := by
  refine ⟨by rfl, by rfl, by rfl, by rfl⟩

/-! ## C10: nested aggregated-frame lengths are not checked against the
frame's own extent -/

/-- C10: in the 7-byte buffer `00 80 00 03 03 40 FF`, decoded as an
aggregated frame of declared size 6, the nested entry declares length 3
although only `6 - 2 - 2 = 2` bytes of the frame's extent remain; since
`offset + 2 + 2 + 3 ≤ 7` still fits the underlying buffer, decode succeeds
and reads byte index 6 — beyond the frame's declared end at index 6 —
whose low nibble becomes the nested Receive-Ready's N(R): changing that
byte from `FF` to `01` changes the decoded value instead of failing. -/
theorem c10_agf_reads_beyond_declared_extent :
    (3 : Int) > 6 - 2 - 2 ∧ 0 + 2 + 2 + 3 ≤ 7 ∧
    decode [0x00, 0x80, 0x00, 0x03, 0x03, 0x40, 0xFF] 0 6 =
      .ok (.aggregatedFrame 0 0 [.receiveReady 0 0 15]) ∧
    decode [0x00, 0x80, 0x00, 0x03, 0x03, 0x40, 0x01] 0 6 =
      .ok (.aggregatedFrame 0 0 [.receiveReady 0 0 1]) := by
  refine ⟨by norm_num, by norm_num, ?_, ?_⟩
  · rw [decode.eq_def]
    norm_num [ProtocolDataUnit.decode_header, shr6_eq, shr2_eq, and_mask15, and_mask63]
    rw [AggregatedFrame.decodeBody.eq_def]
    norm_num
    rw [decode.eq_def]
    norm_num [ReceiveReady.decode, NumberedProtocolDataUnit.decode_header, shr6_eq, shr2_eq,
      shr4_eq, and_mask15, and_mask63]
    rw [AggregatedFrame.decodeBody.eq_def]
    norm_num
  · rw [decode.eq_def]
    norm_num [ProtocolDataUnit.decode_header, shr6_eq, shr2_eq, and_mask15, and_mask63]
    rw [AggregatedFrame.decodeBody.eq_def]
    norm_num
    rw [decode.eq_def]
    norm_num [ReceiveReady.decode, NumberedProtocolDataUnit.decode_header, shr6_eq, shr2_eq,
      shr4_eq, and_mask15, and_mask63]
    rw [AggregatedFrame.decodeBody.eq_def]
    norm_num

/-! ## C1, counterexample part: byte round-trip fails on accepted input -/

/-- C1 fails as stated: the 2-byte buffer `00 40` (a bare Parameter
Exchange) is well-formed — decode accepts it — but re-encoding the decoded
value emits the default VERSION, WKS and OPT TLVs and yields 12 bytes, not
the original buffer. -/
theorem c1_counterexample :
    decode [0x00, 0x40] 0 2 = .ok (.parameterExchange 0 0 (1, 0) 128 3 100 3 0) ∧
    (decode [0x00, 0x40] 0 2).bind encode =
      .ok [0x00, 0x40, 1, 1, 16, 3, 2, 0, 3, 7, 1, 3] ∧
    [0x00, 0x40, 1, 1, 16, 3, 2, 0, 3, 7, 1, 3] ≠ [0x00, 0x40] := by
  have h : decode [0x00, 0x40] 0 2 = .ok (.parameterExchange 0 0 (1, 0) 128 3 100 3 0) := by
    rw [decode.eq_def]
    norm_num [ParameterExchange.decode, ProtocolDataUnit.decode_header, shr6_eq, shr2_eq,
      and_mask15, and_mask63]
    rw [tlvLoop.eq_def]
    norm_num
  refine ⟨h, ?_, by decide⟩
  rw [h]
  rfl

/-! ## C8: bounds enforcement of the decode entry point -/

/-- C8: every call with `size` 0 or 1, and every call with
`offset + size` exceeding the buffer length, fails with `DecodeError`
(the source checks the overrun first, then the header minimum), and no
value is produced. -/
theorem c8_decode_bounds (data : List Nat) (offset : Nat) (size : Int)
    (h : size = 0 ∨ size = 1 ∨ (offset : Int) + size > (data.length : Int)) :
    ∃ msg, decode data offset size = .error (.decodeError msg) := by
  rw [decode.eq_def]
  by_cases h1 : (offset : Int) + size > (data.length : Int)
  · rw [if_pos h1]
    exact ⟨_, rfl⟩
  · rw [if_neg h1]
    have h2 : size < 2 := by omega
    rw [if_pos h2]
    exact ⟨_, rfl⟩

/-- Witness for `c8_decode_bounds`: a 1-byte buffer decoded with size 1. -/
theorem c8_decode_bounds_witness :
    ∃ msg, decode [0x05] 0 1 = .error (.decodeError msg) :=
  c8_decode_bounds [0x05] 0 1 (by norm_num)

/-! ## C7: the Parameter Exchange numeric conversions -/

/-- C7: a Parameter Exchange whose body carries a MIUX TLV with (11-bit)
value `v` decodes to `miu = 128 + v`; with no TLVs, `miu` defaults to 128;
an LTO TLV with value `t` gives `lto = t * 10`; an OPT TLV with value `o`
gives link-service-class `o &&& 3` and data-protection flag
`(o >>> 2) &&& 1`. -/
theorem c7_pax_numeric_conversions (v t o : Nat) (hv : v ≤ 2047) (ht : t ≤ 255)
    (ho : o ≤ 255) :
    ParameterExchange.decode [0x00, 0x40, 2, 2, v / 256, v % 256] 0 6 =
      .ok (.parameterExchange 0 0 (1, 0) (128 + v) 3 100 3 0) ∧
    ParameterExchange.decode [0x00, 0x40] 0 2 =
      .ok (.parameterExchange 0 0 (1, 0) 128 3 100 3 0) ∧
    ParameterExchange.decode [0x00, 0x40, 4, 1, t] 0 5 =
      .ok (.parameterExchange 0 0 (1, 0) 128 3 (t * 10) 3 0) ∧
    ParameterExchange.decode [0x00, 0x40, 7, 1, o] 0 5 =
      .ok (.parameterExchange 0 0 (1, 0) 128 3 100 (o &&& 3) ((o >>> 2) &&& 1)) := by
  refine ⟨?_, ?_, ?_, ?_⟩
  · have e4 : List.getD [0, 64, 2, 2, v / 256, v % 256] 4 0 = v / 256 := rfl
    have e5 : List.getD [0, 64, 2, 2, v / 256, v % 256] 5 0 = v % 256 := rfl
    simp only [ParameterExchange.decode, ProtocolDataUnit.decode_header]
    norm_num [shr2_eq, and_mask63]
    rw [tlvLoop.eq_def]
    simp only [Parameter.decode, e4, e5, ParameterExchange.update]
    norm_num [and_mask2047]
    rw [tlvLoop.eq_def]
    norm_num
    omega
  · simp only [ParameterExchange.decode, ProtocolDataUnit.decode_header]
    norm_num [shr2_eq, and_mask63]
    rw [tlvLoop.eq_def]
    norm_num
  · have e4 : List.getD [0, 64, 4, 1, t] 4 0 = t := rfl
    simp only [ParameterExchange.decode, ProtocolDataUnit.decode_header]
    norm_num [shr2_eq, and_mask63]
    rw [tlvLoop.eq_def]
    simp only [Parameter.decode, e4, ParameterExchange.update]
    norm_num
    rw [tlvLoop.eq_def]
    norm_num
  · have e4 : List.getD [0, 64, 7, 1, o] 4 0 = o := rfl
    simp only [ParameterExchange.decode, ProtocolDataUnit.decode_header]
    norm_num [shr2_eq, and_mask63]
    rw [tlvLoop.eq_def]
    simp only [Parameter.decode, e4, ParameterExchange.update]
    norm_num
    rw [tlvLoop.eq_def]
    norm_num
    omega

/-- Witness for `c7_pax_numeric_conversions` at `v = 100`, `t = 99`,
`o = 7`. -/
theorem c7_pax_numeric_conversions_witness :
    ParameterExchange.decode [0x00, 0x40, 2, 2, 0, 100] 0 6 =
      .ok (.parameterExchange 0 0 (1, 0) 228 3 100 3 0) ∧
    ParameterExchange.decode [0x00, 0x40, 4, 1, 99] 0 5 =
      .ok (.parameterExchange 0 0 (1, 0) 128 3 990 3 0) ∧
    ParameterExchange.decode [0x00, 0x40, 7, 1, 7] 0 5 =
      .ok (.parameterExchange 0 0 (1, 0) 128 3 100 3 1) := by
  have h := c7_pax_numeric_conversions 100 99 7 (by norm_num) (by norm_num) (by norm_num)
  refine ⟨?_, h.2.2.1, ?_⟩
  · have h1 := h.1
    norm_num at h1
    exact h1
  · have h3 := h.2.2.2
    norm_num [and_mask3, shr2_eq] at h3
    exact h3

/-! ## Positional list helpers for reasoning about `decode` on a buffer
`pre ++ (b ++ post)` at offset `pre.length` -/

theorem getD_shift (pre rest : List Nat) (i : Nat) :
    (pre ++ rest).getD (pre.length + i) 0 = rest.getD i 0 := by
  simp [List.getD, List.getElem?_append_right (Nat.le_add_right pre.length i)]

theorem getD_shift0 (pre rest : List Nat) :
    (pre ++ rest).getD pre.length 0 = rest.getD 0 0 := by
  have h := getD_shift pre rest 0
  simpa using h

theorem drop_shift (pre rest : List Nat) (i : Nat) :
    (pre ++ rest).drop (pre.length + i) = rest.drop i :=
  List.drop_append i

/-! ## Well-formed TLV chunks

A `Chunk` packages one encoded TLV together with the `(T, L, V)` triple
that `Parameter.decode` recovers from it; `ChunkSpec` states that
recovery, position- and context-independently. -/

structure Chunk where
  bytes : List Nat
  T : Nat
  L : Nat
  V : TLV

/-- A chunk is well formed when its byte length is `2 + L` and
`Parameter.decode` recovers its `(T, L, V)` from any position and context,
for any `size` bound covering the chunk. -/
def ChunkSpec (c : Chunk) : Prop :=
  c.bytes.length = 2 + c.L ∧
  ∀ (pre rest : List Nat) (s : Int), (2 + c.L : Int) ≤ s →
    Parameter.decode (pre ++ (c.bytes ++ rest)) pre.length s = .ok (some (c.T, c.L, c.V))

def chunksBytes : List Chunk → List Nat
  | [] => []
  | c :: cs => c.bytes ++ chunksBytes cs

def chunksSize : List Chunk → Int
  | [] => 0
  | c :: cs => 2 + (c.L : Int) + chunksSize cs

theorem chunksSize_nonneg (cs : List Chunk) : 0 ≤ chunksSize cs := by
  induction cs with
  | nil => simp [chunksSize]
  | cons c cs ih =>
    simp only [chunksSize]
    omega

theorem chunksBytes_length (cs : List Chunk) (h : ∀ c ∈ cs, ChunkSpec c) :
    (chunksBytes cs).length = (chunksSize cs).toNat := by
  induction cs with
  | nil => simp [chunksBytes, chunksSize]
  | cons c cs ih =>
    have hc := (h c (by simp)).1
    have hrest := ih (fun x hx => h x (by simp [hx]))
    have hnn := chunksSize_nonneg cs
    simp only [chunksBytes, chunksSize, List.length_append, hc, hrest]
    omega

/-- Running a per-variant TLV loop over a well-formed chunk sequence folds
the variant's update function over the chunks' `(T, L, V)` triples. -/
theorem tlvLoop_chunks (upd : σ → Nat → Nat → TLV → σ) (cs : List Chunk)
    (hcs : ∀ c ∈ cs, ChunkSpec c) (pre post : List Nat) (st : σ) :
    tlvLoop upd (pre ++ (chunksBytes cs ++ post)) pre.length (chunksSize cs) st =
      .ok (cs.foldl (fun f c => upd f c.T c.L c.V) st) := by
  induction cs generalizing pre st with
  | nil =>
    rw [tlvLoop.eq_def]
    rw [if_neg (by simp [chunksSize])]
    simp [List.foldl]
  | cons c cs ih =>
    have hc := hcs c (by simp)
    have hrest : ∀ x ∈ cs, ChunkSpec x := fun x hx => hcs x (by simp [hx])
    have hnn := chunksSize_nonneg cs
    have hL := hc.1
    rw [tlvLoop.eq_def]
    rw [if_pos (by simp only [chunksSize]; omega)]
    have hdec := hc.2 pre (chunksBytes cs ++ post) (chunksSize (c :: cs))
      (by simp only [chunksSize]; omega)
    simp only [chunksBytes, List.append_assoc] at hdec ⊢
    rw [hdec]
    dsimp only
    have hoff : pre.length + 2 + c.L = (pre ++ c.bytes).length := by
      simp [hL]
      omega
    have hsz : chunksSize (c :: cs) - 2 - (c.L : Int) = chunksSize cs := by
      simp only [chunksSize]
      omega
    rw [hoff, hsz]
    have := ih hrest (pre ++ c.bytes) (upd st c.T c.L c.V)
    simp only [List.append_assoc] at this
    rw [this]
    simp [List.foldl]

/-! ## The individual TLV chunks produced by `Parameter.encode` and their
recovery by `Parameter.decode` -/

/-- `ChunkSpec` with the chunk's components spelled out. -/
def ChunkOK (bytes : List Nat) (T L : Nat) (V : TLV) : Prop :=
  bytes.length = 2 + L ∧
  ∀ (pre rest : List Nat) (s : Int), (2 + L : Int) ≤ s →
    Parameter.decode (pre ++ (bytes ++ rest)) pre.length s = .ok (some (T, L, V))

theorem chunkSpec_of_ok {bytes T L V} (h : ChunkOK bytes T L V) :
    ChunkSpec ⟨bytes, T, L, V⟩ := h

theorem paramEncode_version (a b : Nat) (ha : a ≤ 15) (hb : b ≤ 15) :
    Parameter.encode 1 (.pair a b) = .ok [1, 1, a * 16 + b] := by
  rw [Parameter.encode, if_pos rfl, nibbles_eq a b hb, packB, if_pos (by omega)]
  rfl

theorem chunkOK_version (a b : Nat) (ha : a ≤ 15) (hb : b ≤ 15) :
    ChunkOK [1, 1, a * 16 + b] 1 1 (.pair a b) := by
  refine ⟨rfl, fun pre rest s hs => ?_⟩
  rw [Parameter.decode]
  rw [if_pos (by simp)]
  simp only [getD_shift, getD_shift0, List.cons_append, List.getD_cons_zero,
    List.getD_cons_succ, List.nil_append]
  rw [if_neg (by omega)]
  norm_num
  have e1 : (a * 16 + b) >>> 4 = a := by omega
  have e2 : a * 16 + b &&& 15 = b := by
    rw [and_mask15]
    omega
  rw [e1, e2]
  exact ⟨rfl, rfl⟩

theorem paramEncode_miux (v : Nat) (hv : v ≤ 65535) :
    Parameter.encode 2 (.num v) = .ok [2, 2, v / 256, v % 256] := by
  rw [Parameter.encode, if_neg (by omega), if_neg (by norm_num), if_pos (by norm_num),
    packH, if_pos (by omega)]
  rfl

theorem chunkOK_miux (v : Nat) (hv : v ≤ 2047) :
    ChunkOK [2, 2, v / 256, v % 256] 2 2 (.num v) := by
  refine ⟨rfl, fun pre rest s hs => ?_⟩
  rw [Parameter.decode]
  rw [if_pos (by simp)]
  simp only [getD_shift, getD_shift0, List.cons_append, List.getD_cons_zero,
    List.getD_cons_succ, List.nil_append]
  rw [if_neg (by omega)]
  norm_num
  have e1 : v / 256 * 256 + v % 256 &&& 2047 = v := by
    rw [and_mask2047]
    omega
  rw [e1]

theorem paramEncode_wks (v : Nat) (hv : v ≤ 65535) :
    Parameter.encode 3 (.num v) = .ok [3, 2, v / 256, v % 256] := by
  rw [Parameter.encode, if_neg (by omega), if_neg (by norm_num), if_pos (by norm_num),
    packH, if_pos (by omega)]
  rfl

theorem chunkOK_wks (v : Nat) (hv : v ≤ 65535) :
    ChunkOK [3, 2, v / 256, v % 256] 3 2 (.num v) := by
  refine ⟨rfl, fun pre rest s hs => ?_⟩
  rw [Parameter.decode]
  rw [if_pos (by simp)]
  simp only [getD_shift, getD_shift0, List.cons_append, List.getD_cons_zero,
    List.getD_cons_succ, List.nil_append]
  rw [if_neg (by omega)]
  norm_num
  have e1 : v / 256 * 256 + v % 256 = v := by omega
  rw [e1]

theorem paramEncode_lto (v : Nat) (hv : v ≤ 255) :
    Parameter.encode 4 (.num v) = .ok [4, 1, v] := by
  rw [Parameter.encode, if_neg (by omega), if_pos (by norm_num), packB, if_pos (by omega)]
  rfl

theorem chunkOK_lto (v : Nat) : ChunkOK [4, 1, v] 4 1 (.num v) := by
  refine ⟨rfl, fun pre rest s hs => ?_⟩
  rw [Parameter.decode]
  rw [if_pos (by simp)]
  simp only [getD_shift, getD_shift0, List.cons_append, List.getD_cons_zero,
    List.getD_cons_succ, List.nil_append]
  rw [if_neg (by omega)]
  norm_num

theorem paramEncode_rw (v : Nat) (hv : v ≤ 255) :
    Parameter.encode 5 (.num v) = .ok [5, 1, v] := by
  rw [Parameter.encode, if_neg (by omega), if_pos (by norm_num), packB, if_pos (by omega)]
  rfl

theorem chunkOK_rw (v : Nat) : ChunkOK [5, 1, v] 5 1 (.num v) := by
  refine ⟨rfl, fun pre rest s hs => ?_⟩
  rw [Parameter.decode]
  rw [if_pos (by simp)]
  simp only [getD_shift, getD_shift0, List.cons_append, List.getD_cons_zero,
    List.getD_cons_succ, List.nil_append]
  rw [if_neg (by omega)]
  norm_num

theorem paramEncode_opt (v : Nat) (hv : v ≤ 255) :
    Parameter.encode 7 (.num v) = .ok [7, 1, v] := by
  rw [Parameter.encode, if_neg (by omega), if_pos (by norm_num), packB, if_pos (by omega)]
  rfl

theorem chunkOK_opt (v : Nat) : ChunkOK [7, 1, v] 7 1 (.num v) := by
  refine ⟨rfl, fun pre rest s hs => ?_⟩
  rw [Parameter.decode]
  rw [if_pos (by simp)]
  simp only [getD_shift, getD_shift0, List.cons_append, List.getD_cons_zero,
    List.getD_cons_succ, List.nil_append]
  rw [if_neg (by omega)]
  norm_num

theorem paramEncode_sn (bs : List Nat) (h : bs.length ≤ 255) :
    Parameter.encode 6 (.raw bs) = .ok ([6, bs.length] ++ bs) := by
  rw [Parameter.encode, if_neg (by omega), if_neg (by norm_num), if_neg (by norm_num),
    if_pos (by norm_num), if_neg (by omega)]

theorem chunkOK_sn (bs : List Nat) (h : bs.length ≤ 255) :
    ChunkOK ([6, bs.length] ++ bs) 6 bs.length (.raw bs) := by
  refine ⟨(by simp; omega), fun pre rest s hs => ?_⟩
  rw [Parameter.decode]
  rw [if_pos (by simp)]
  simp only [getD_shift, getD_shift0, List.cons_append, List.getD_cons_zero,
    List.getD_cons_succ, List.nil_append]
  rw [if_neg (by omega)]
  norm_num

theorem paramEncode_sdreq (tid : Nat) (sn : List Nat) (h1 : tid ≤ 255)
    (h2 : sn.length ≤ 254) :
    Parameter.encode 8 (.req tid sn) = .ok ([8, 1 + sn.length, tid] ++ sn) := by
  rw [Parameter.encode, if_neg (by omega), if_neg (by norm_num), if_neg (by norm_num),
    if_neg (by norm_num), if_pos rfl, if_neg (by omega), packB, if_pos (by omega)]
  rfl

theorem chunkOK_sdreq (tid : Nat) (sn : List Nat) (h2 : sn.length ≤ 254) :
    ChunkOK ([8, 1 + sn.length, tid] ++ sn) 8 (1 + sn.length) (.req tid sn) := by
  refine ⟨(by simp; omega), fun pre rest s hs => ?_⟩
  rw [Parameter.decode]
  rw [if_pos (by simp)]
  simp only [getD_shift, getD_shift0, List.cons_append, List.getD_cons_zero,
    List.getD_cons_succ, List.nil_append]
  rw [if_neg (by omega)]
  norm_num
  intro hcontra
  exfalso
  omega

theorem paramEncode_sdres (tid sap : Nat) (h1 : tid ≤ 255) (h2 : sap ≤ 255) :
    Parameter.encode 9 (.pair tid sap) = .ok [9, 2, tid, sap] := by
  rw [Parameter.encode, if_neg (by omega), if_neg (by norm_num), if_neg (by norm_num),
    if_neg (by norm_num), if_neg (by omega), if_pos rfl, packB, if_pos (by omega),
    packB, if_pos (by omega)]
  rfl

theorem chunkOK_sdres (tid sap : Nat) : ChunkOK [9, 2, tid, sap] 9 2 (.pair tid sap) := by
  refine ⟨rfl, fun pre rest s hs => ?_⟩
  rw [Parameter.decode]
  rw [if_pos (by simp)]
  simp only [getD_shift, getD_shift0, List.cons_append, List.getD_cons_zero,
    List.getD_cons_succ, List.nil_append]
  rw [if_neg (by omega)]
  norm_num

theorem paramEncode_ecpk (bs : List Nat) (h : bs.length ≤ 255) :
    Parameter.encode 10 (.raw bs) = .ok ([10, bs.length] ++ bs) := by
  rw [Parameter.encode, if_neg (by omega), if_neg (by norm_num), if_neg (by norm_num),
    if_pos (by norm_num), if_neg (by omega)]

theorem chunkOK_ecpk (bs : List Nat) (h : bs.length ≤ 255) :
    ChunkOK ([10, bs.length] ++ bs) 10 bs.length (.raw bs) := by
  refine ⟨(by simp; omega), fun pre rest s hs => ?_⟩
  rw [Parameter.decode]
  rw [if_pos (by simp)]
  simp only [getD_shift, getD_shift0, List.cons_append, List.getD_cons_zero,
    List.getD_cons_succ, List.nil_append]
  rw [if_neg (by omega)]
  norm_num

theorem paramEncode_rn (bs : List Nat) (h : bs.length ≤ 255) :
    Parameter.encode 11 (.raw bs) = .ok ([11, bs.length] ++ bs) := by
  rw [Parameter.encode, if_neg (by omega), if_neg (by norm_num), if_neg (by norm_num),
    if_pos (by norm_num), if_neg (by omega)]

theorem chunkOK_rn (bs : List Nat) (h : bs.length ≤ 255) :
    ChunkOK ([11, bs.length] ++ bs) 11 bs.length (.raw bs) := by
  refine ⟨(by simp; omega), fun pre rest s hs => ?_⟩
  rw [Parameter.decode]
  rw [if_pos (by simp)]
  simp only [getD_shift, getD_shift0, List.cons_append, List.getD_cons_zero,
    List.getD_cons_succ, List.nil_append]
  rw [if_neg (by omega)]
  norm_num

/-! ## Header recovery -/

theorem decode_header_at (pre rest : List Nat) (b0 b1 : Nat) (s : Int) (hs : 2 ≤ s) :
    ProtocolDataUnit.decode_header (pre ++ (b0 :: b1 :: rest)) pre.length s =
      .ok (b0 >>> 2, b1 &&& 63) := by
  rw [ProtocolDataUnit.decode_header, if_neg (by omega), if_pos (by simp)]
  simp only [getD_shift, getD_shift0, List.getD_cons_zero, List.getD_cons_succ]

theorem decode_header3_at (pre rest : List Nat) (b0 b1 b2 : Nat) (s : Int) (hs : 3 ≤ s) :
    NumberedProtocolDataUnit.decode_header (pre ++ (b0 :: b1 :: b2 :: rest)) pre.length s =
      .ok (b0 >>> 2, b1 &&& 63, b2 >>> 4, b2 &&& 15) := by
  rw [NumberedProtocolDataUnit.decode_header, if_neg (by omega), if_pos (by simp)]
  simp only [getD_shift, getD_shift0, List.getD_cons_zero, List.getD_cons_succ]

/-! ## Round-trip, variant by variant: for canonical field values the
encoding is computed explicitly, and decoding it from any position inside
any enclosing buffer returns the original value. -/

theorem symm_decode_at (pre rest : List Nat) (s : Int) (hs2 : 2 ≤ s) (hs3 : s < 3) :
    Symmetry.decode (pre ++ (0 :: 0 :: rest)) pre.length s = .ok (.symmetry 0 0) := by
  rw [Symmetry.decode, decode_header_at pre rest 0 0 s hs2]
  norm_num
  intro h3
  exfalso
  omega

theorem symmetry_roundtrip (d s : Nat) (h : canonical (.symmetry d s) = true) :
    ∃ b, pduEncode (.symmetry d s) = .ok b ∧ 2 ≤ b.length ∧
      ∀ pre post, decode (pre ++ (b ++ post)) pre.length (b.length : Int) =
        .ok (.symmetry d s) := by
  simp only [canonical, Bool.and_eq_true, beq_iff_eq] at h
  obtain ⟨hd, hs⟩ := h
  subst hd hs
  refine ⟨[0, 0], ?_, by norm_num, fun pre post => ?_⟩
  · rw [pduEncode]
    have he := encode_header_eq 0 0 0 (by omega) (by omega) (by omega)
    rw [Symmetry.encode, he]
  · rw [decode.eq_def]
    rw [if_neg (by simp <;> omega)]
    rw [if_neg (by simp <;> omega)]
    rw [dif_pos (by simp <;> omega)]
    simp only [getD_shift, getD_shift0, List.cons_append, List.getD_cons_zero,
      List.getD_cons_succ, List.length_cons, List.length_nil]
    norm_num [shr6_eq, and_mask15]
    rw [symm_decode_at pre post 2 (by norm_num) (by norm_num)]

theorem encode_header3_some_eq (d p s k nr : Nat) (hd : d ≤ 63) (hp : p ≤ 15) (hs : s ≤ 63)
    (hk : k ≤ 15) (hnr : nr ≤ 15) :
    NumberedProtocolDataUnit.encode_header d p s (some k) nr =
      .ok [d * 4 + p / 4, p % 4 * 64 + s, k * 16 + nr] := by
  rw [NumberedProtocolDataUnit.encode_header, headerWord_eq d p s hp hs]
  rw [if_neg (by omega), if_neg (by omega), if_neg (by omega)]
  rw [if_neg (by simp [nsTruthy]; omega)]
  rw [packH, if_pos (by omega)]
  have hbyte : (if nsTruthy (some k) then (some k).getD 0 <<< 4 else 0) ||| nr = k * 16 + nr := by
    by_cases hk0 : k = 0
    · subst hk0
      simp [nsTruthy]
    · rw [if_pos (by simp [nsTruthy]; exact hk0)]
      simp only [Option.getD_some]
      rw [nibbles_eq k nr hnr]
  rw [hbyte, packB, if_pos (by omega)]
  have h1 : (d * 1024 + p * 64 + s) / 256 = d * 4 + p / 4 := by omega
  have h2 : (d * 1024 + p * 64 + s) % 256 = p % 4 * 64 + s := by omega
  rw [h1, h2]
  rfl

theorem encode_header3_none_eq (d p s nr : Nat) (hd : d ≤ 63) (hp : p ≤ 15) (hs : s ≤ 63)
    (hnr : nr ≤ 15) :
    NumberedProtocolDataUnit.encode_header d p s none nr =
      .ok [d * 4 + p / 4, p % 4 * 64 + s, nr] := by
  rw [NumberedProtocolDataUnit.encode_header, headerWord_eq d p s hp hs]
  rw [if_neg (by omega), if_neg (by omega), if_neg (by omega)]
  rw [if_neg (by simp [nsTruthy])]
  rw [packH, if_pos (by omega)]
  have hbyte : (if nsTruthy none then (none : Option Nat).getD 0 <<< 4 else 0) ||| nr = nr := by
    simp [nsTruthy]
  rw [hbyte, packB, if_pos (by omega)]
  have h1 : (d * 1024 + p * 64 + s) / 256 = d * 4 + p / 4 := by omega
  have h2 : (d * 1024 + p * 64 + s) % 256 = p % 4 * 64 + s := by omega
  rw [h1, h2]
  rfl

theorem disconnect_decode_at (pre rest : List Nat) (d s : Nat) (hd : d ≤ 63) (hs : s ≤ 63)
    (sz : Int) (hsz : 2 ≤ sz) :
    Disconnect.decode (pre ++ ((d * 4 + 1) :: (64 + s) :: rest)) pre.length sz =
      .ok (.disconnect d s) := by
  rw [Disconnect.decode, decode_header_at pre rest _ _ sz hsz]
  rw [shr2_eq, and_mask63]
  have e1 : (d * 4 + 1) / 4 = d := by omega
  have e2 : (64 + s) % 64 = s := by omega
  rw [e1, e2]

theorem disconnect_roundtrip (d s : Nat) (h : canonical (.disconnect d s) = true) :
    ∃ b, pduEncode (.disconnect d s) = .ok b ∧ 2 ≤ b.length ∧
      ∀ pre post, decode (pre ++ (b ++ post)) pre.length (b.length : Int) =
        .ok (.disconnect d s) := by
  simp only [canonical, Bool.and_eq_true, decide_eq_true_eq] at h
  obtain ⟨hd, hs⟩ := h
  refine ⟨[d * 4 + 1, 64 + s], ?_, by norm_num, fun pre post => ?_⟩
  · rw [pduEncode]
    have he := encode_header_eq d 5 s hd (by omega) hs
    rw [Disconnect.encode, he]
  · rw [decode.eq_def]
    rw [if_neg (by simp <;> omega)]
    rw [if_neg (by simp <;> omega)]
    rw [dif_pos (by simp <;> omega)]
    simp only [getD_shift, getD_shift0, List.cons_append, List.getD_cons_zero,
      List.getD_cons_succ, List.length_cons, List.length_nil]
    have hpt : ((d * 4 + 1) * 256 + (64 + s)) >>> 6 &&& 15 = 5 := by
      rw [shr6_eq, and_mask15]
      omega
    rw [hpt]
    norm_num
    rw [disconnect_decode_at pre post d s hd hs 2 (by norm_num)]

theorem dm_decode_at (pre rest : List Nat) (d s r : Nat) (hd : d ≤ 63) (hs : s ≤ 63) :
    DisconnectedMode.decode (pre ++ ((d * 4 + 1) :: (192 + s) :: r :: rest)) pre.length 3 =
      .ok (.disconnectedMode d s r) := by
  rw [DisconnectedMode.decode, if_neg (by norm_num)]
  rw [decode_header_at pre (r :: rest) _ _ 3 (by norm_num)]
  dsimp only
  rw [if_pos (by simp)]
  simp only [getD_shift, List.getD_cons_zero, List.getD_cons_succ]
  rw [shr2_eq, and_mask63]
  have e1 : (d * 4 + 1) / 4 = d := by omega
  have e2 : (192 + s) % 64 = s := by omega
  rw [e1, e2]

theorem dm_roundtrip (d s r : Nat) (h : canonical (.disconnectedMode d s r) = true) :
    ∃ b, pduEncode (.disconnectedMode d s r) = .ok b ∧ 2 ≤ b.length ∧
      ∀ pre post, decode (pre ++ (b ++ post)) pre.length (b.length : Int) =
        .ok (.disconnectedMode d s r) := by
  simp only [canonical, Bool.and_eq_true, decide_eq_true_eq] at h
  obtain ⟨⟨hd, hs⟩, hr⟩ := h
  refine ⟨[d * 4 + 1, 192 + s, r], ?_, by norm_num, fun pre post => ?_⟩
  · rw [pduEncode, DisconnectedMode.encode]
    have he := encode_header_eq d 7 s hd (by omega) hs
    rw [he]
    have hp : packB r = .ok [r] := by rw [packB, if_pos (by omega)]
    rw [hp]
    rfl
  · rw [decode.eq_def]
    rw [if_neg (by simp <;> omega)]
    rw [if_neg (by simp <;> omega)]
    rw [dif_pos (by simp <;> omega)]
    simp only [getD_shift, getD_shift0, List.cons_append, List.getD_cons_zero,
      List.getD_cons_succ, List.length_cons, List.length_nil]
    have hpt : ((d * 4 + 1) * 256 + (192 + s)) >>> 6 &&& 15 = 7 := by
      rw [shr6_eq, and_mask15]
      omega
    rw [hpt]
    norm_num
    rw [dm_decode_at pre post d s r hd hs]

theorem ui_decode_at (pre : List Nat) (d s : Nat) (data post : List Nat)
    (hd : d ≤ 63) (hs : s ≤ 63) :
    UnnumberedInformation.decode (pre ++ ((d * 4) :: (192 + s) :: (data ++ post))) pre.length
      ((2 + data.length : Nat) : Int) = .ok (.unnumberedInformation d s data) := by
  rw [UnnumberedInformation.decode]
  rw [decode_header_at pre (data ++ post) _ _ _ (by push_cast; omega)]
  have hdrop : (pre ++ (d * 4) :: (192 + s) :: (data ++ post)).drop (pre.length + 2) =
      data ++ post := by
    have h2 := drop_shift pre ((d * 4) :: (192 + s) :: (data ++ post)) 2
    simpa using h2
  rw [hdrop]
  have htake : (((2 + data.length : Nat) : Int) - 2).toNat = data.length := by omega
  rw [htake, List.take_left' rfl]
  rw [shr2_eq, and_mask63]
  have e1 : d * 4 / 4 = d := by omega
  have e2 : (192 + s) % 64 = s := by omega
  rw [e1, e2]

theorem ui_roundtrip (d s : Nat) (data : List Nat)
    (h : canonical (.unnumberedInformation d s data) = true) :
    ∃ b, pduEncode (.unnumberedInformation d s data) = .ok b ∧ 2 ≤ b.length ∧
      ∀ pre post, decode (pre ++ (b ++ post)) pre.length (b.length : Int) =
        .ok (.unnumberedInformation d s data) := by
  simp only [canonical, Bool.and_eq_true, decide_eq_true_eq] at h
  obtain ⟨hd, hs⟩ := h
  refine ⟨(d * 4) :: (192 + s) :: data, ?_, by simp, fun pre post => ?_⟩
  · rw [pduEncode, UnnumberedInformation.encode]
    have he := encode_header_eq d 3 s hd (by omega) hs
    rw [he]
    rfl
  · rw [decode.eq_def]
    rw [if_neg (by simp <;> omega)]
    rw [if_neg (by simp <;> omega)]
    rw [dif_pos (by simp <;> omega)]
    simp only [getD_shift, getD_shift0, List.cons_append, List.getD_cons_zero,
      List.getD_cons_succ, List.length_cons]
    have hpt : (d * 4 * 256 + (192 + s)) >>> 6 &&& 15 = 3 := by
      rw [shr6_eq, and_mask15]
      omega
    rw [hpt]
    norm_num
    have hui := ui_decode_at pre d s data post hd hs
    simp only [List.cons_append] at hui ⊢
    convert hui using 2
    push_cast
    omega

theorem info_decode_at (pre : List Nat) (d s k nr : Nat) (data post : List Nat)
    (hd : d ≤ 63) (hs : s ≤ 63) (hk : k ≤ 15) (hnr : nr ≤ 15) :
    Information.decode (pre ++ ((d * 4 + 3) :: s :: (k * 16 + nr) :: (data ++ post)))
      pre.length ((3 + data.length : Nat) : Int) =
      .ok (.information d s (some k) nr data) := by
  rw [Information.decode]
  rw [decode_header3_at pre (data ++ post) _ _ _ _ (by push_cast; omega)]
  dsimp only
  have hdrop : (pre ++ (d * 4 + 3) :: s :: (k * 16 + nr) :: (data ++ post)).drop
      (pre.length + 3) = data ++ post := by
    have h3 := drop_shift pre ((d * 4 + 3) :: s :: (k * 16 + nr) :: (data ++ post)) 3
    simpa using h3
  rw [hdrop]
  have htake : (((3 + data.length : Nat) : Int) - 3).toNat = data.length := by omega
  rw [htake, List.take_left' rfl]
  rw [shr2_eq, and_mask63, shr4_eq, and_mask15]
  have e1 : (d * 4 + 3) / 4 = d := by omega
  have e2 : s % 64 = s := by omega
  have e3 : (k * 16 + nr) / 16 = k := by omega
  have e4 : (k * 16 + nr) % 16 = nr := by omega
  rw [e1, e2, e3, e4]

theorem info_roundtrip (d s k nr : Nat) (data : List Nat)
    (h : canonical (.information d s (some k) nr data) = true) :
    ∃ b, pduEncode (.information d s (some k) nr data) = .ok b ∧ 2 ≤ b.length ∧
      ∀ pre post, decode (pre ++ (b ++ post)) pre.length (b.length : Int) =
        .ok (.information d s (some k) nr data) := by
  simp only [canonical, Bool.and_eq_true, decide_eq_true_eq] at h
  obtain ⟨⟨⟨hd, hs⟩, hk⟩, hnr⟩ := h
  refine ⟨(d * 4 + 3) :: s :: (k * 16 + nr) :: data, ?_, by simp, fun pre post => ?_⟩
  · rw [pduEncode, Information.encode]
    have he := encode_header3_some_eq d 12 s k nr hd (by omega) hs hk hnr
    rw [he]
    norm_num
  · rw [decode.eq_def]
    rw [if_neg (by simp <;> omega)]
    rw [if_neg (by simp <;> omega)]
    rw [dif_pos (by simp <;> omega)]
    simp only [getD_shift, getD_shift0, List.cons_append, List.getD_cons_zero,
      List.getD_cons_succ, List.length_cons]
    have hpt : ((d * 4 + 3) * 256 + s) >>> 6 &&& 15 = 12 := by
      rw [shr6_eq, and_mask15]
      omega
    rw [hpt]
    norm_num
    have hinfo := info_decode_at pre d s k nr data post hd hs hk hnr
    simp only [List.cons_append] at hinfo ⊢
    convert hinfo using 2
    push_cast
    omega

theorem rr_decode_at (pre rest : List Nat) (d s nr : Nat) (hd : d ≤ 63) (hs : s ≤ 63)
    (hnr : nr ≤ 15) (sz : Int) (hsz : 3 ≤ sz) :
    ReceiveReady.decode (pre ++ ((d * 4 + 3) :: (64 + s) :: nr :: rest)) pre.length sz =
      .ok (.receiveReady d s nr) := by
  rw [ReceiveReady.decode]
  rw [decode_header3_at pre rest _ _ _ sz hsz]
  dsimp only
  rw [shr2_eq, and_mask63, and_mask15]
  have e1 : (d * 4 + 3) / 4 = d := by omega
  have e2 : (64 + s) % 64 = s := by omega
  have e4 : nr % 16 = nr := by omega
  rw [e1, e2, e4]

theorem rr_roundtrip (d s nr : Nat) (h : canonical (.receiveReady d s nr) = true) :
    ∃ b, pduEncode (.receiveReady d s nr) = .ok b ∧ 2 ≤ b.length ∧
      ∀ pre post, decode (pre ++ (b ++ post)) pre.length (b.length : Int) =
        .ok (.receiveReady d s nr) := by
  simp only [canonical, Bool.and_eq_true, decide_eq_true_eq] at h
  obtain ⟨⟨hd, hs⟩, hnr⟩ := h
  refine ⟨[d * 4 + 3, 64 + s, nr], ?_, by norm_num, fun pre post => ?_⟩
  · rw [pduEncode, ReceiveReady.encode]
    have he := encode_header3_none_eq d 13 s nr hd (by omega) hs hnr
    rw [he]
  · rw [decode.eq_def]
    rw [if_neg (by simp <;> omega)]
    rw [if_neg (by simp <;> omega)]
    rw [dif_pos (by simp <;> omega)]
    simp only [getD_shift, getD_shift0, List.cons_append, List.getD_cons_zero,
      List.getD_cons_succ, List.length_cons, List.length_nil]
    have hpt : ((d * 4 + 3) * 256 + (64 + s)) >>> 6 &&& 15 = 13 := by
      rw [shr6_eq, and_mask15]
      omega
    rw [hpt]
    norm_num
    rw [rr_decode_at pre post d s nr hd hs hnr 3 (by norm_num)]

theorem rnr_decode_at (pre rest : List Nat) (d s nr : Nat) (hd : d ≤ 63) (hs : s ≤ 63)
    (hnr : nr ≤ 15) (sz : Int) (hsz : 3 ≤ sz) :
    ReceiveNotReady.decode (pre ++ ((d * 4 + 3) :: (128 + s) :: nr :: rest)) pre.length sz =
      .ok (.receiveNotReady d s nr) := by
  rw [ReceiveNotReady.decode]
  rw [decode_header3_at pre rest _ _ _ sz hsz]
  dsimp only
  rw [shr2_eq, and_mask63, and_mask15]
  have e1 : (d * 4 + 3) / 4 = d := by omega
  have e2 : (128 + s) % 64 = s := by omega
  have e4 : nr % 16 = nr := by omega
  rw [e1, e2, e4]

theorem rnr_roundtrip (d s nr : Nat) (h : canonical (.receiveNotReady d s nr) = true) :
    ∃ b, pduEncode (.receiveNotReady d s nr) = .ok b ∧ 2 ≤ b.length ∧
      ∀ pre post, decode (pre ++ (b ++ post)) pre.length (b.length : Int) =
        .ok (.receiveNotReady d s nr) := by
  simp only [canonical, Bool.and_eq_true, decide_eq_true_eq] at h
  obtain ⟨⟨hd, hs⟩, hnr⟩ := h
  refine ⟨[d * 4 + 3, 128 + s, nr], ?_, by norm_num, fun pre post => ?_⟩
  · rw [pduEncode, ReceiveNotReady.encode]
    have he := encode_header3_none_eq d 14 s nr hd (by omega) hs hnr
    rw [he]
  · rw [decode.eq_def]
    rw [if_neg (by simp <;> omega)]
    rw [if_neg (by simp <;> omega)]
    rw [dif_pos (by simp <;> omega)]
    simp only [getD_shift, getD_shift0, List.cons_append, List.getD_cons_zero,
      List.getD_cons_succ, List.length_cons, List.length_nil]
    have hpt : ((d * 4 + 3) * 256 + (128 + s)) >>> 6 &&& 15 = 14 := by
      rw [shr6_eq, and_mask15]
      omega
    rw [hpt]
    norm_num
    rw [rnr_decode_at pre post d s nr hd hs hnr 3 (by norm_num)]

/-! ## TLV-carrying variants -/

def paxFold (cs : List Chunk) : PaxFields :=
  cs.foldl (fun f c => ParameterExchange.update f c.T c.L c.V) {}

theorem pax_decode_chunks (cs : List Chunk) (hcs : ∀ c ∈ cs, ChunkSpec c) (pre post : List Nat) :
    ParameterExchange.decode (pre ++ (0 :: 64 :: (chunksBytes cs ++ post))) pre.length
      (2 + chunksSize cs) =
      .ok (.parameterExchange 0 0 (paxFold cs).version (paxFold cs).miu (paxFold cs).wks
        (paxFold cs).lto (paxFold cs).lsc (paxFold cs).dpc) := by
  have hnn := chunksSize_nonneg cs
  rw [ParameterExchange.decode]
  rw [decode_header_at pre (chunksBytes cs ++ post) 0 64 _ (by omega)]
  dsimp only
  norm_num [and_mask63]
  have hre : pre ++ 0 :: 64 :: (chunksBytes cs ++ post) =
      (pre ++ [0, 64]) ++ (chunksBytes cs ++ post) := by
    simp
  have hoff : pre.length + 2 = (pre ++ [0, 64]).length := by
    simp
  rw [hre, hoff, tlvLoop_chunks ParameterExchange.update cs hcs (pre ++ [0, 64]) post {}]
  rfl

theorem pax_roundtrip (a b miu wks lto lsc dpc : Nat)
    (h : canonical (.parameterExchange 0 0 (a, b) miu wks lto lsc dpc) = true) :
    ∃ bb, pduEncode (.parameterExchange 0 0 (a, b) miu wks lto lsc dpc) = .ok bb ∧
      2 ≤ bb.length ∧
      ∀ pre post, decode (pre ++ (bb ++ post)) pre.length (bb.length : Int) =
        .ok (.parameterExchange 0 0 (a, b) miu wks lto lsc dpc) := by
  simp only [canonical, canonicalMiu, Bool.and_eq_true, Bool.or_eq_true, beq_iff_eq,
    decide_eq_true_eq, bne_iff_ne, ne_eq] at h
  obtain ⟨⟨⟨⟨⟨⟨⟨⟨⟨-, -⟩, ha⟩, hb⟩, hmiu⟩, hwks⟩, hlto⟩, hlsc⟩, hdpc⟩, hopt⟩ := h
  have hwne : wks ≠ 0 := by omega
  have hoptc : lsc ≠ 0 ∨ dpc ≠ 0 := by
    rcases hopt with h1 | h1
    · left; exact h1
    · right; exact h1
  have hob : dpc <<< 2 ||| lsc = dpc * 4 + lsc := by
    have := shiftLeft_or_eq_add dpc lsc 2 (by omega)
    rw [this]
    norm_num
  -- the OPT TLV round-trip arithmetic
  have hlsc' : (dpc * 4 + lsc) &&& 3 = lsc := by
    rw [and_mask3]
    omega
  have hdpc' : ((dpc * 4 + lsc) >>> 2) &&& 1 = dpc := by
    have h1 : (dpc * 4 + lsc) >>> 2 = dpc := by omega
    rw [h1, Nat.and_one_is_mod]
    omega
  by_cases hm : 128 < miu
  · by_cases hl : lto ≠ 0 ∧ lto ≠ 100
    · -- MIUX and LTO both present
      refine ⟨[0, 64] ++ ([1, 1, a * 16 + b] ++ ([2, 2, (miu - 128) / 256, (miu - 128) % 256] ++
        ([3, 2, wks / 256, wks % 256] ++ ([4, 1, lto / 10] ++ [7, 1, dpc * 4 + lsc])))), ?_, ?_, ?_⟩
      · rw [pduEncode, ParameterExchange.encode]
        dsimp only
        simp only [encode_header_eq 0 1 0 (by omega) (by omega) (by omega), hob, hm, hwne, hl,
          hoptc, ne_eq, not_false_eq_true, and_self, true_or, if_true, ite_true,
          paramEncode_version a b ha hb, paramEncode_miux (miu - 128) (by omega),
          paramEncode_wks wks (by omega), paramEncode_lto (lto / 10) (by omega),
          paramEncode_opt (dpc * 4 + lsc) (by omega)]
        rfl
      · simp
      · intro pre post
        rw [decode.eq_def]
        rw [if_neg (by simp <;> omega)]
        rw [if_neg (by simp <;> omega)]
        rw [dif_pos (by simp <;> omega)]
        simp only [getD_shift, getD_shift0, List.cons_append, List.getD_cons_zero,
          List.getD_cons_succ, List.length_cons, List.length_append]
        have hpt : (0 * 256 + 64) >>> 6 &&& 15 = 1 := by
          rw [shr6_eq, and_mask15]
        rw [hpt]
        norm_num
        have hchunks : ∀ c ∈ [(⟨[1, 1, a * 16 + b], 1, 1, .pair a b⟩ : Chunk),
            ⟨[2, 2, (miu - 128) / 256, (miu - 128) % 256], 2, 2, .num (miu - 128)⟩,
            ⟨[3, 2, wks / 256, wks % 256], 3, 2, .num wks⟩,
            ⟨[4, 1, lto / 10], 4, 1, .num (lto / 10)⟩,
            ⟨[7, 1, dpc * 4 + lsc], 7, 1, .num (dpc * 4 + lsc)⟩], ChunkSpec c := by
          intro c hc
          simp only [List.mem_cons, List.not_mem_nil, or_false] at hc
          rcases hc with rfl | rfl | rfl | rfl | rfl
          · exact chunkOK_version a b ha hb
          · exact chunkOK_miux _ (by omega)
          · exact chunkOK_wks _ (by omega)
          · exact chunkOK_lto _
          · exact chunkOK_opt _
        have hdec := pax_decode_chunks _ hchunks pre post
        simp only [chunksBytes, chunksSize, List.append_nil, List.cons_append,
          List.nil_append] at hdec
        simp only [paxFold, List.foldl, ParameterExchange.update] at hdec
        norm_num [hlsc', hdpc'] at hdec
        rw [show 128 + (miu - 128) = miu by omega] at hdec
        rw [show lto / 10 * 10 = lto by omega] at hdec
        norm_num
        exact hdec
    · -- MIUX present, LTO at its default 100 (elided)
      have hl100 : lto = 100 := by omega
      subst hl100
      refine ⟨[0, 64] ++ ([1, 1, a * 16 + b] ++ ([2, 2, (miu - 128) / 256, (miu - 128) % 256] ++
        ([3, 2, wks / 256, wks % 256] ++ [7, 1, dpc * 4 + lsc]))), ?_, ?_, ?_⟩
      · rw [pduEncode, ParameterExchange.encode]
        dsimp only
        simp only [encode_header_eq 0 1 0 (by omega) (by omega) (by omega), hob, hm, hwne,
          ne_eq, not_false_eq_true, and_self, true_or, if_true, ite_true,
          paramEncode_version a b ha hb, paramEncode_miux (miu - 128) (by omega),
          paramEncode_wks wks (by omega), paramEncode_opt (dpc * 4 + lsc) (by omega)]
        norm_num [hoptc]
        rfl
      · simp
      · intro pre post
        rw [decode.eq_def]
        rw [if_neg (by simp <;> omega)]
        rw [if_neg (by simp <;> omega)]
        rw [dif_pos (by simp <;> omega)]
        simp only [getD_shift, getD_shift0, List.cons_append, List.getD_cons_zero,
          List.getD_cons_succ, List.length_cons, List.length_append]
        have hpt : (0 * 256 + 64) >>> 6 &&& 15 = 1 := by
          rw [shr6_eq, and_mask15]
        rw [hpt]
        norm_num
        have hchunks : ∀ c ∈ [(⟨[1, 1, a * 16 + b], 1, 1, .pair a b⟩ : Chunk),
            ⟨[2, 2, (miu - 128) / 256, (miu - 128) % 256], 2, 2, .num (miu - 128)⟩,
            ⟨[3, 2, wks / 256, wks % 256], 3, 2, .num wks⟩,
            ⟨[7, 1, dpc * 4 + lsc], 7, 1, .num (dpc * 4 + lsc)⟩], ChunkSpec c := by
          intro c hc
          simp only [List.mem_cons, List.not_mem_nil, or_false] at hc
          rcases hc with rfl | rfl | rfl | rfl
          · exact chunkOK_version a b ha hb
          · exact chunkOK_miux _ (by omega)
          · exact chunkOK_wks _ (by omega)
          · exact chunkOK_opt _
        have hdec := pax_decode_chunks _ hchunks pre post
        simp only [chunksBytes, chunksSize, List.append_nil, List.cons_append,
          List.nil_append] at hdec
        simp only [paxFold, List.foldl, ParameterExchange.update] at hdec
        norm_num [hlsc', hdpc'] at hdec
        rw [show 128 + (miu - 128) = miu by omega] at hdec
        norm_num
        exact hdec
  · have hm128 : miu = 128 := by omega
    subst hm128
    by_cases hl : lto ≠ 0 ∧ lto ≠ 100
    · -- MIU at its default 128 (elided), LTO present
      refine ⟨[0, 64] ++ ([1, 1, a * 16 + b] ++ ([3, 2, wks / 256, wks % 256] ++
        ([4, 1, lto / 10] ++ [7, 1, dpc * 4 + lsc]))), ?_, ?_, ?_⟩
      · rw [pduEncode, ParameterExchange.encode]
        dsimp only
        simp only [encode_header_eq 0 1 0 (by omega) (by omega) (by omega), hob, hwne, hl,
          ne_eq, not_false_eq_true, and_self, true_or, if_true, ite_true,
          paramEncode_version a b ha hb,
          paramEncode_wks wks (by omega), paramEncode_lto (lto / 10) (by omega),
          paramEncode_opt (dpc * 4 + lsc) (by omega)]
        norm_num [hoptc]
        rfl
      · simp
      · intro pre post
        rw [decode.eq_def]
        rw [if_neg (by simp <;> omega)]
        rw [if_neg (by simp <;> omega)]
        rw [dif_pos (by simp <;> omega)]
        simp only [getD_shift, getD_shift0, List.cons_append, List.getD_cons_zero,
          List.getD_cons_succ, List.length_cons, List.length_append]
        have hpt : (0 * 256 + 64) >>> 6 &&& 15 = 1 := by
          rw [shr6_eq, and_mask15]
        rw [hpt]
        norm_num
        have hchunks : ∀ c ∈ [(⟨[1, 1, a * 16 + b], 1, 1, .pair a b⟩ : Chunk),
            ⟨[3, 2, wks / 256, wks % 256], 3, 2, .num wks⟩,
            ⟨[4, 1, lto / 10], 4, 1, .num (lto / 10)⟩,
            ⟨[7, 1, dpc * 4 + lsc], 7, 1, .num (dpc * 4 + lsc)⟩], ChunkSpec c := by
          intro c hc
          simp only [List.mem_cons, List.not_mem_nil, or_false] at hc
          rcases hc with rfl | rfl | rfl | rfl
          · exact chunkOK_version a b ha hb
          · exact chunkOK_wks _ (by omega)
          · exact chunkOK_lto _
          · exact chunkOK_opt _
        have hdec := pax_decode_chunks _ hchunks pre post
        simp only [chunksBytes, chunksSize, List.append_nil, List.cons_append,
          List.nil_append] at hdec
        simp only [paxFold, List.foldl, ParameterExchange.update] at hdec
        norm_num [hlsc', hdpc'] at hdec
        rw [show lto / 10 * 10 = lto by omega] at hdec
        norm_num
        exact hdec
    · -- both MIU and LTO at their defaults (elided)
      have hl100 : lto = 100 := by omega
      subst hl100
      refine ⟨[0, 64] ++ ([1, 1, a * 16 + b] ++ ([3, 2, wks / 256, wks % 256] ++
        [7, 1, dpc * 4 + lsc])), ?_, ?_, ?_⟩
      · rw [pduEncode, ParameterExchange.encode]
        dsimp only
        simp only [encode_header_eq 0 1 0 (by omega) (by omega) (by omega), hob, hwne,
          ne_eq, not_false_eq_true, and_self, true_or, if_true, ite_true,
          paramEncode_version a b ha hb,
          paramEncode_wks wks (by omega),
          paramEncode_opt (dpc * 4 + lsc) (by omega)]
        norm_num [hoptc]
        rfl
      · simp
      · intro pre post
        rw [decode.eq_def]
        rw [if_neg (by simp <;> omega)]
        rw [if_neg (by simp <;> omega)]
        rw [dif_pos (by simp <;> omega)]
        simp only [getD_shift, getD_shift0, List.cons_append, List.getD_cons_zero,
          List.getD_cons_succ, List.length_cons, List.length_append]
        have hpt : (0 * 256 + 64) >>> 6 &&& 15 = 1 := by
          rw [shr6_eq, and_mask15]
        rw [hpt]
        norm_num
        have hchunks : ∀ c ∈ [(⟨[1, 1, a * 16 + b], 1, 1, .pair a b⟩ : Chunk),
            ⟨[3, 2, wks / 256, wks % 256], 3, 2, .num wks⟩,
            ⟨[7, 1, dpc * 4 + lsc], 7, 1, .num (dpc * 4 + lsc)⟩], ChunkSpec c := by
          intro c hc
          simp only [List.mem_cons, List.not_mem_nil, or_false] at hc
          rcases hc with rfl | rfl | rfl
          · exact chunkOK_version a b ha hb
          · exact chunkOK_wks _ (by omega)
          · exact chunkOK_opt _
        have hdec := pax_decode_chunks _ hchunks pre post
        simp only [chunksBytes, chunksSize, List.append_nil, List.cons_append,
          List.nil_append] at hdec
        simp only [paxFold, List.foldl, ParameterExchange.update] at hdec
        norm_num [hlsc', hdpc'] at hdec
        norm_num
        exact hdec

def connFold (cs : List Chunk) : ConnectFields :=
  cs.foldl (fun f c => Connect.update f c.T c.L c.V) {}

theorem connect_decode_chunks (d s : Nat) (hs63 : s ≤ 63) (cs : List Chunk)
    (hcs : ∀ c ∈ cs, ChunkSpec c) (pre post : List Nat) :
    Connect.decode (pre ++ ((d * 4 + 1) :: s :: (chunksBytes cs ++ post))) pre.length
      (2 + chunksSize cs) =
      .ok (.connect d s (connFold cs).miu (connFold cs).rw (connFold cs).sn) := by
  have hnn := chunksSize_nonneg cs
  rw [Connect.decode]
  rw [decode_header_at pre (chunksBytes cs ++ post) (d * 4 + 1) s _ (by omega)]
  dsimp only
  rw [show (d * 4 + 1) >>> 2 = d by omega]
  rw [show s &&& 63 = s by rw [and_mask63]; omega]
  rw [show (2 : Int) + chunksSize cs - 2 = chunksSize cs by ring]
  have hre : pre ++ (d * 4 + 1) :: s :: (chunksBytes cs ++ post) =
      (pre ++ [d * 4 + 1, s]) ++ (chunksBytes cs ++ post) := by
    simp
  have hoff : pre.length + 2 = (pre ++ [d * 4 + 1, s]).length := by
    simp
  rw [hre, hoff, tlvLoop_chunks Connect.update cs hcs (pre ++ [d * 4 + 1, s]) post {}]
  rfl

theorem connect_roundtrip (d s miu rw : Nat) (sn : List Nat)
    (h : canonical (.connect d s miu rw sn) = true) :
    ∃ bb, pduEncode (.connect d s miu rw sn) = .ok bb ∧ 2 ≤ bb.length ∧
      ∀ pre post, decode (pre ++ (bb ++ post)) pre.length (bb.length : Int) =
        .ok (.connect d s miu rw sn) := by
  simp only [canonical, canonicalMiu, canonicalRw, Bool.and_eq_true, Bool.or_eq_true,
    beq_iff_eq, decide_eq_true_eq] at h
  obtain ⟨⟨⟨⟨hd, hs⟩, hmiu⟩, hrw⟩, hsnl⟩ := h
  by_cases hm : 128 < miu
  · by_cases hr : rw ≠ 0 ∧ rw ≠ 1
    · by_cases hsn : sn ≠ []
      · -- MIUX, RW and SN all present
        refine ⟨[d * 4 + 1, s, 2, 2, (miu - 128) / 256, (miu - 128) % 256, 5, 1, rw,
          6, sn.length] ++ sn, ?_, ?_, ?_⟩
        · rw [pduEncode, Connect.encode]
          dsimp only
          simp only [encode_header_eq d 4 s hd (by omega) hs, hm, hr, hsn, ne_eq,
            not_false_eq_true, and_self, if_true, ite_true,
            paramEncode_miux (miu - 128) (by omega), paramEncode_rw rw (by omega),
            paramEncode_sn sn hsnl]
          norm_num
          rfl
        · simp
        · intro pre post
          rw [decode.eq_def]
          rw [if_neg (by simp <;> omega)]
          rw [if_neg (by simp <;> omega)]
          rw [dif_pos (by simp <;> omega)]
          simp only [getD_shift, getD_shift0, List.cons_append, List.getD_cons_zero,
            List.getD_cons_succ, List.length_cons, List.length_append]
          have hpt : ((d * 4 + 1) * 256 + s) >>> 6 &&& 15 = 4 := by
            rw [shr6_eq, and_mask15]
            omega
          rw [hpt]
          norm_num
          have hchunks : ∀ c ∈ [(⟨[2, 2, (miu - 128) / 256, (miu - 128) % 256], 2, 2,
              .num (miu - 128)⟩ : Chunk),
              ⟨[5, 1, rw], 5, 1, .num rw⟩,
              ⟨[6, sn.length] ++ sn, 6, sn.length, .raw sn⟩], ChunkSpec c := by
            intro c hc
            simp only [List.mem_cons, List.not_mem_nil, or_false] at hc
            rcases hc with rfl | rfl | rfl
            · exact chunkOK_miux _ (by omega)
            · exact chunkOK_rw _
            · exact chunkOK_sn sn hsnl
          have hdec := connect_decode_chunks d s hs _ hchunks pre post
          simp only [chunksBytes, chunksSize, List.append_nil, List.cons_append,
            List.nil_append, List.append_assoc] at hdec
          simp only [connFold, List.foldl, Connect.update] at hdec
          norm_num at hdec
          rw [show 128 + (miu - 128) = miu by omega] at hdec
          norm_num
          convert hdec using 2
          push_cast
          omega
      · -- MIUX and RW present, SN empty (elided)
        have hsn0 : sn = [] := by simpa using hsn
        subst hsn0
        refine ⟨[d * 4 + 1, s, 2, 2, (miu - 128) / 256, (miu - 128) % 256, 5, 1, rw],
          ?_, ?_, ?_⟩
        · rw [pduEncode, Connect.encode]
          dsimp only
          simp only [encode_header_eq d 4 s hd (by omega) hs, hm, hr, ne_eq,
            not_false_eq_true, and_self, if_true, ite_true,
            paramEncode_miux (miu - 128) (by omega), paramEncode_rw rw (by omega)]
          norm_num
          rfl
        · simp
        · intro pre post
          rw [decode.eq_def]
          rw [if_neg (by simp <;> omega)]
          rw [if_neg (by simp <;> omega)]
          rw [dif_pos (by simp <;> omega)]
          simp only [getD_shift, getD_shift0, List.cons_append, List.getD_cons_zero,
            List.getD_cons_succ, List.length_cons, List.length_append]
          have hpt : ((d * 4 + 1) * 256 + s) >>> 6 &&& 15 = 4 := by
            rw [shr6_eq, and_mask15]
            omega
          rw [hpt]
          norm_num
          have hchunks : ∀ c ∈ [(⟨[2, 2, (miu - 128) / 256, (miu - 128) % 256], 2, 2,
              .num (miu - 128)⟩ : Chunk),
              ⟨[5, 1, rw], 5, 1, .num rw⟩], ChunkSpec c := by
            intro c hc
            simp only [List.mem_cons, List.not_mem_nil, or_false] at hc
            rcases hc with rfl | rfl
            · exact chunkOK_miux _ (by omega)
            · exact chunkOK_rw _
          have hdec := connect_decode_chunks d s hs _ hchunks pre post
          simp only [chunksBytes, chunksSize, List.append_nil, List.cons_append,
            List.nil_append, List.append_assoc] at hdec
          simp only [connFold, List.foldl, Connect.update] at hdec
          norm_num at hdec
          rw [show 128 + (miu - 128) = miu by omega] at hdec
          norm_num
          exact hdec
    · -- MIUX present, RW at its default 1 (elided)
      have hr1 : rw = 1 := by omega
      subst hr1
      by_cases hsn : sn ≠ []
      · refine ⟨[d * 4 + 1, s, 2, 2, (miu - 128) / 256, (miu - 128) % 256,
          6, sn.length] ++ sn, ?_, ?_, ?_⟩
        · rw [pduEncode, Connect.encode]
          dsimp only
          simp only [encode_header_eq d 4 s hd (by omega) hs, hm, hsn, ne_eq,
            not_false_eq_true, and_self, if_true, ite_true,
            paramEncode_miux (miu - 128) (by omega), paramEncode_sn sn hsnl]
          norm_num
          rfl
        · simp
        · intro pre post
          rw [decode.eq_def]
          rw [if_neg (by simp <;> omega)]
          rw [if_neg (by simp <;> omega)]
          rw [dif_pos (by simp <;> omega)]
          simp only [getD_shift, getD_shift0, List.cons_append, List.getD_cons_zero,
            List.getD_cons_succ, List.length_cons, List.length_append]
          have hpt : ((d * 4 + 1) * 256 + s) >>> 6 &&& 15 = 4 := by
            rw [shr6_eq, and_mask15]
            omega
          rw [hpt]
          norm_num
          have hchunks : ∀ c ∈ [(⟨[2, 2, (miu - 128) / 256, (miu - 128) % 256], 2, 2,
              .num (miu - 128)⟩ : Chunk),
              ⟨[6, sn.length] ++ sn, 6, sn.length, .raw sn⟩], ChunkSpec c := by
            intro c hc
            simp only [List.mem_cons, List.not_mem_nil, or_false] at hc
            rcases hc with rfl | rfl
            · exact chunkOK_miux _ (by omega)
            · exact chunkOK_sn sn hsnl
          have hdec := connect_decode_chunks d s hs _ hchunks pre post
          simp only [chunksBytes, chunksSize, List.append_nil, List.cons_append,
            List.nil_append, List.append_assoc] at hdec
          simp only [connFold, List.foldl, Connect.update] at hdec
          norm_num at hdec
          rw [show 128 + (miu - 128) = miu by omega] at hdec
          norm_num
          convert hdec using 2
          push_cast
          omega
      · have hsn0 : sn = [] := by simpa using hsn
        subst hsn0
        refine ⟨[d * 4 + 1, s, 2, 2, (miu - 128) / 256, (miu - 128) % 256], ?_, ?_, ?_⟩
        · rw [pduEncode, Connect.encode]
          dsimp only
          simp only [encode_header_eq d 4 s hd (by omega) hs, hm, ne_eq,
            not_false_eq_true, and_self, if_true, ite_true,
            paramEncode_miux (miu - 128) (by omega)]
          norm_num
          rfl
        · simp
        · intro pre post
          rw [decode.eq_def]
          rw [if_neg (by simp <;> omega)]
          rw [if_neg (by simp <;> omega)]
          rw [dif_pos (by simp <;> omega)]
          simp only [getD_shift, getD_shift0, List.cons_append, List.getD_cons_zero,
            List.getD_cons_succ, List.length_cons, List.length_append]
          have hpt : ((d * 4 + 1) * 256 + s) >>> 6 &&& 15 = 4 := by
            rw [shr6_eq, and_mask15]
            omega
          rw [hpt]
          norm_num
          have hchunks : ∀ c ∈ [(⟨[2, 2, (miu - 128) / 256, (miu - 128) % 256], 2, 2,
              .num (miu - 128)⟩ : Chunk)], ChunkSpec c := by
            intro c hc
            simp only [List.mem_cons, List.not_mem_nil, or_false] at hc
            rcases hc with rfl
            exact chunkOK_miux _ (by omega)
          have hdec := connect_decode_chunks d s hs _ hchunks pre post
          simp only [chunksBytes, chunksSize, List.append_nil, List.cons_append,
            List.nil_append, List.append_assoc] at hdec
          simp only [connFold, List.foldl, Connect.update] at hdec
          norm_num at hdec
          rw [show 128 + (miu - 128) = miu by omega] at hdec
          norm_num
          exact hdec
  · -- MIU at its default 128 (elided)
    have hm128 : miu = 128 := by omega
    subst hm128
    by_cases hr : rw ≠ 0 ∧ rw ≠ 1
    · by_cases hsn : sn ≠ []
      · refine ⟨[d * 4 + 1, s, 5, 1, rw, 6, sn.length] ++ sn, ?_, ?_, ?_⟩
        · rw [pduEncode, Connect.encode]
          dsimp only
          simp only [encode_header_eq d 4 s hd (by omega) hs, hr, hsn, ne_eq,
            not_false_eq_true, and_self, if_true, ite_true,
            paramEncode_rw rw (by omega), paramEncode_sn sn hsnl]
          norm_num
          rfl
        · simp
        · intro pre post
          rw [decode.eq_def]
          rw [if_neg (by simp <;> omega)]
          rw [if_neg (by simp <;> omega)]
          rw [dif_pos (by simp <;> omega)]
          simp only [getD_shift, getD_shift0, List.cons_append, List.getD_cons_zero,
            List.getD_cons_succ, List.length_cons, List.length_append]
          have hpt : ((d * 4 + 1) * 256 + s) >>> 6 &&& 15 = 4 := by
            rw [shr6_eq, and_mask15]
            omega
          rw [hpt]
          norm_num
          have hchunks : ∀ c ∈ [(⟨[5, 1, rw], 5, 1, .num rw⟩ : Chunk),
              ⟨[6, sn.length] ++ sn, 6, sn.length, .raw sn⟩], ChunkSpec c := by
            intro c hc
            simp only [List.mem_cons, List.not_mem_nil, or_false] at hc
            rcases hc with rfl | rfl
            · exact chunkOK_rw _
            · exact chunkOK_sn sn hsnl
          have hdec := connect_decode_chunks d s hs _ hchunks pre post
          simp only [chunksBytes, chunksSize, List.append_nil, List.cons_append,
            List.nil_append, List.append_assoc] at hdec
          simp only [connFold, List.foldl, Connect.update] at hdec
          norm_num at hdec
          norm_num
          convert hdec using 2
          push_cast
          omega
      · have hsn0 : sn = [] := by simpa using hsn
        subst hsn0
        refine ⟨[d * 4 + 1, s, 5, 1, rw], ?_, ?_, ?_⟩
        · rw [pduEncode, Connect.encode]
          dsimp only
          simp only [encode_header_eq d 4 s hd (by omega) hs, hr, ne_eq,
            not_false_eq_true, and_self, if_true, ite_true, paramEncode_rw rw (by omega)]
          norm_num
          rfl
        · simp
        · intro pre post
          rw [decode.eq_def]
          rw [if_neg (by simp <;> omega)]
          rw [if_neg (by simp <;> omega)]
          rw [dif_pos (by simp <;> omega)]
          simp only [getD_shift, getD_shift0, List.cons_append, List.getD_cons_zero,
            List.getD_cons_succ, List.length_cons, List.length_append]
          have hpt : ((d * 4 + 1) * 256 + s) >>> 6 &&& 15 = 4 := by
            rw [shr6_eq, and_mask15]
            omega
          rw [hpt]
          norm_num
          have hchunks : ∀ c ∈ [(⟨[5, 1, rw], 5, 1, .num rw⟩ : Chunk)], ChunkSpec c := by
            intro c hc
            simp only [List.mem_cons, List.not_mem_nil, or_false] at hc
            rcases hc with rfl
            exact chunkOK_rw _
          have hdec := connect_decode_chunks d s hs _ hchunks pre post
          simp only [chunksBytes, chunksSize, List.append_nil, List.cons_append,
            List.nil_append, List.append_assoc] at hdec
          simp only [connFold, List.foldl, Connect.update] at hdec
          norm_num at hdec
          norm_num
          exact hdec
    · have hr1 : rw = 1 := by omega
      subst hr1
      by_cases hsn : sn ≠ []
      · refine ⟨[d * 4 + 1, s, 6, sn.length] ++ sn, ?_, ?_, ?_⟩
        · rw [pduEncode, Connect.encode]
          dsimp only
          simp only [encode_header_eq d 4 s hd (by omega) hs, hsn, ne_eq,
            not_false_eq_true, and_self, if_true, ite_true, paramEncode_sn sn hsnl]
          norm_num
          rfl
        · simp
        · intro pre post
          rw [decode.eq_def]
          rw [if_neg (by simp <;> omega)]
          rw [if_neg (by simp <;> omega)]
          rw [dif_pos (by simp <;> omega)]
          simp only [getD_shift, getD_shift0, List.cons_append, List.getD_cons_zero,
            List.getD_cons_succ, List.length_cons, List.length_append]
          have hpt : ((d * 4 + 1) * 256 + s) >>> 6 &&& 15 = 4 := by
            rw [shr6_eq, and_mask15]
            omega
          rw [hpt]
          norm_num
          have hchunks : ∀ c ∈ [(⟨[6, sn.length] ++ sn, 6, sn.length, .raw sn⟩ : Chunk)],
              ChunkSpec c := by
            intro c hc
            simp only [List.mem_cons, List.not_mem_nil, or_false] at hc
            rcases hc with rfl
            exact chunkOK_sn sn hsnl
          have hdec := connect_decode_chunks d s hs _ hchunks pre post
          simp only [chunksBytes, chunksSize, List.append_nil, List.cons_append,
            List.nil_append, List.append_assoc] at hdec
          simp only [connFold, List.foldl, Connect.update] at hdec
          norm_num at hdec
          norm_num
          convert hdec using 2
          push_cast
          omega
      · have hsn0 : sn = [] := by simpa using hsn
        subst hsn0
        refine ⟨[d * 4 + 1, s], ?_, ?_, ?_⟩
        · rw [pduEncode, Connect.encode]
          dsimp only
          simp only [encode_header_eq d 4 s hd (by omega) hs]
          norm_num
        · simp
        · intro pre post
          rw [decode.eq_def]
          rw [if_neg (by simp <;> omega)]
          rw [if_neg (by simp <;> omega)]
          rw [dif_pos (by simp <;> omega)]
          simp only [getD_shift, getD_shift0, List.cons_append, List.getD_cons_zero,
            List.getD_cons_succ, List.length_cons, List.length_append]
          have hpt : ((d * 4 + 1) * 256 + s) >>> 6 &&& 15 = 4 := by
            rw [shr6_eq, and_mask15]
            omega
          rw [hpt]
          norm_num
          have hchunks : ∀ c ∈ ([] : List Chunk), ChunkSpec c := by
            intro c hc
            simp at hc
          have hdec := connect_decode_chunks d s hs _ hchunks pre post
          simp only [chunksBytes, chunksSize, List.append_nil, List.cons_append,
            List.nil_append, List.append_assoc] at hdec
          simp only [connFold, List.foldl] at hdec
          norm_num at hdec
          norm_num
          exact hdec

def ccFold (cs : List Chunk) : CcFields :=
  cs.foldl (fun f c => ConnectionComplete.update f c.T c.L c.V) {}

theorem cc_decode_chunks (d s : Nat) (hs63 : s ≤ 63) (cs : List Chunk)
    (hcs : ∀ c ∈ cs, ChunkSpec c) (pre post : List Nat) :
    ConnectionComplete.decode (pre ++ ((d * 4 + 1) :: (128 + s) :: (chunksBytes cs ++ post)))
      pre.length (2 + chunksSize cs) =
      .ok (.connectionComplete d s (ccFold cs).miu (ccFold cs).rw) := by
  have hnn := chunksSize_nonneg cs
  rw [ConnectionComplete.decode]
  rw [decode_header_at pre (chunksBytes cs ++ post) (d * 4 + 1) (128 + s) _ (by omega)]
  dsimp only
  rw [show (d * 4 + 1) >>> 2 = d by omega]
  rw [show (128 + s) &&& 63 = s by rw [and_mask63]; omega]
  rw [show (2 : Int) + chunksSize cs - 2 = chunksSize cs by ring]
  have hre : pre ++ (d * 4 + 1) :: (128 + s) :: (chunksBytes cs ++ post) =
      (pre ++ [d * 4 + 1, 128 + s]) ++ (chunksBytes cs ++ post) := by
    simp
  have hoff : pre.length + 2 = (pre ++ [d * 4 + 1, 128 + s]).length := by
    simp
  rw [hre, hoff, tlvLoop_chunks ConnectionComplete.update cs hcs
    (pre ++ [d * 4 + 1, 128 + s]) post {}]
  rfl

theorem cc_roundtrip (d s miu rw : Nat)
    (h : canonical (.connectionComplete d s miu rw) = true) :
    ∃ bb, pduEncode (.connectionComplete d s miu rw) = .ok bb ∧ 2 ≤ bb.length ∧
      ∀ pre post, decode (pre ++ (bb ++ post)) pre.length (bb.length : Int) =
        .ok (.connectionComplete d s miu rw) := by
  simp only [canonical, canonicalMiu, canonicalRw, Bool.and_eq_true, Bool.or_eq_true,
    beq_iff_eq, decide_eq_true_eq] at h
  obtain ⟨⟨⟨hd, hs⟩, hmiu⟩, hrw⟩ := h
  by_cases hm : 128 < miu
  · by_cases hr : rw ≠ 0 ∧ rw ≠ 1
    · refine ⟨[d * 4 + 1, 128 + s, 2, 2, (miu - 128) / 256, (miu - 128) % 256, 5, 1, rw],
        ?_, ?_, ?_⟩
      · rw [pduEncode, ConnectionComplete.encode]
        dsimp only
        simp only [encode_header_eq d 6 s hd (by omega) hs, hm, hr, ne_eq,
          not_false_eq_true, and_self, if_true, ite_true,
          paramEncode_miux (miu - 128) (by omega), paramEncode_rw rw (by omega)]
        norm_num
        rfl
      · simp
      · intro pre post
        rw [decode.eq_def]
        rw [if_neg (by simp <;> omega)]
        rw [if_neg (by simp <;> omega)]
        rw [dif_pos (by simp <;> omega)]
        simp only [getD_shift, getD_shift0, List.cons_append, List.getD_cons_zero,
          List.getD_cons_succ, List.length_cons, List.length_append]
        have hpt : ((d * 4 + 1) * 256 + (128 + s)) >>> 6 &&& 15 = 6 := by
          rw [shr6_eq, and_mask15]
          omega
        rw [hpt]
        norm_num
        have hchunks : ∀ c ∈ [(⟨[2, 2, (miu - 128) / 256, (miu - 128) % 256], 2, 2,
            .num (miu - 128)⟩ : Chunk),
            ⟨[5, 1, rw], 5, 1, .num rw⟩], ChunkSpec c := by
          intro c hc
          simp only [List.mem_cons, List.not_mem_nil, or_false] at hc
          rcases hc with rfl | rfl
          · exact chunkOK_miux _ (by omega)
          · exact chunkOK_rw _
        have hdec := cc_decode_chunks d s hs _ hchunks pre post
        simp only [chunksBytes, chunksSize, List.append_nil, List.cons_append,
          List.nil_append, List.append_assoc] at hdec
        simp only [ccFold, List.foldl, ConnectionComplete.update] at hdec
        norm_num at hdec
        rw [show 128 + (miu - 128) = miu by omega] at hdec
        norm_num
        exact hdec
    · have hr1 : rw = 1 := by omega
      subst hr1
      refine ⟨[d * 4 + 1, 128 + s, 2, 2, (miu - 128) / 256, (miu - 128) % 256], ?_, ?_, ?_⟩
      · rw [pduEncode, ConnectionComplete.encode]
        dsimp only
        simp only [encode_header_eq d 6 s hd (by omega) hs, hm, ne_eq,
          not_false_eq_true, and_self, if_true, ite_true,
          paramEncode_miux (miu - 128) (by omega)]
        norm_num
        rfl
      · simp
      · intro pre post
        rw [decode.eq_def]
        rw [if_neg (by simp <;> omega)]
        rw [if_neg (by simp <;> omega)]
        rw [dif_pos (by simp <;> omega)]
        simp only [getD_shift, getD_shift0, List.cons_append, List.getD_cons_zero,
          List.getD_cons_succ, List.length_cons, List.length_append]
        have hpt : ((d * 4 + 1) * 256 + (128 + s)) >>> 6 &&& 15 = 6 := by
          rw [shr6_eq, and_mask15]
          omega
        rw [hpt]
        norm_num
        have hchunks : ∀ c ∈ [(⟨[2, 2, (miu - 128) / 256, (miu - 128) % 256], 2, 2,
            .num (miu - 128)⟩ : Chunk)], ChunkSpec c := by
          intro c hc
          simp only [List.mem_cons, List.not_mem_nil, or_false] at hc
          rcases hc with rfl
          exact chunkOK_miux _ (by omega)
        have hdec := cc_decode_chunks d s hs _ hchunks pre post
        simp only [chunksBytes, chunksSize, List.append_nil, List.cons_append,
          List.nil_append, List.append_assoc] at hdec
        simp only [ccFold, List.foldl, ConnectionComplete.update] at hdec
        norm_num at hdec
        rw [show 128 + (miu - 128) = miu by omega] at hdec
        norm_num
        exact hdec
  · have hm128 : miu = 128 := by omega
    subst hm128
    by_cases hr : rw ≠ 0 ∧ rw ≠ 1
    · refine ⟨[d * 4 + 1, 128 + s, 5, 1, rw], ?_, ?_, ?_⟩
      · rw [pduEncode, ConnectionComplete.encode]
        dsimp only
        simp only [encode_header_eq d 6 s hd (by omega) hs, hr, ne_eq,
          not_false_eq_true, and_self, if_true, ite_true, paramEncode_rw rw (by omega)]
        norm_num
        rfl
      · simp
      · intro pre post
        rw [decode.eq_def]
        rw [if_neg (by simp <;> omega)]
        rw [if_neg (by simp <;> omega)]
        rw [dif_pos (by simp <;> omega)]
        simp only [getD_shift, getD_shift0, List.cons_append, List.getD_cons_zero,
          List.getD_cons_succ, List.length_cons, List.length_append]
        have hpt : ((d * 4 + 1) * 256 + (128 + s)) >>> 6 &&& 15 = 6 := by
          rw [shr6_eq, and_mask15]
          omega
        rw [hpt]
        norm_num
        have hchunks : ∀ c ∈ [(⟨[5, 1, rw], 5, 1, .num rw⟩ : Chunk)], ChunkSpec c := by
          intro c hc
          simp only [List.mem_cons, List.not_mem_nil, or_false] at hc
          rcases hc with rfl
          exact chunkOK_rw _
        have hdec := cc_decode_chunks d s hs _ hchunks pre post
        simp only [chunksBytes, chunksSize, List.append_nil, List.cons_append,
          List.nil_append, List.append_assoc] at hdec
        simp only [ccFold, List.foldl, ConnectionComplete.update] at hdec
        norm_num at hdec
        norm_num
        exact hdec
    · have hr1 : rw = 1 := by omega
      subst hr1
      refine ⟨[d * 4 + 1, 128 + s], ?_, ?_, ?_⟩
      · rw [pduEncode, ConnectionComplete.encode]
        dsimp only
        simp only [encode_header_eq d 6 s hd (by omega) hs]
        norm_num
      · simp
      · intro pre post
        rw [decode.eq_def]
        rw [if_neg (by simp <;> omega)]
        rw [if_neg (by simp <;> omega)]
        rw [dif_pos (by simp <;> omega)]
        simp only [getD_shift, getD_shift0, List.cons_append, List.getD_cons_zero,
          List.getD_cons_succ, List.length_cons, List.length_append]
        have hpt : ((d * 4 + 1) * 256 + (128 + s)) >>> 6 &&& 15 = 6 := by
          rw [shr6_eq, and_mask15]
          omega
        rw [hpt]
        norm_num
        have hchunks : ∀ c ∈ ([] : List Chunk), ChunkSpec c := by
          intro c hc
          simp at hc
        have hdec := cc_decode_chunks d s hs _ hchunks pre post
        simp only [chunksBytes, chunksSize, List.append_nil, List.cons_append,
          List.nil_append, List.append_assoc] at hdec
        simp only [ccFold, List.foldl] at hdec
        norm_num at hdec
        norm_num
        exact hdec

def dpsFold (cs : List Chunk) : DpsFields :=
  cs.foldl (fun f c => DataProtectionSetup.update f c.T c.L c.V) {}

theorem dps_decode_chunks (d s : Nat) (hs63 : s ≤ 63) (cs : List Chunk)
    (hcs : ∀ c ∈ cs, ChunkSpec c) (pre post : List Nat) :
    DataProtectionSetup.decode (pre ++ ((d * 4 + 2) :: (128 + s) :: (chunksBytes cs ++ post)))
      pre.length (2 + chunksSize cs) =
      .ok (.dataProtectionSetup d s (dpsFold cs).ecpk (dpsFold cs).rn) := by
  have hnn := chunksSize_nonneg cs
  rw [DataProtectionSetup.decode]
  rw [decode_header_at pre (chunksBytes cs ++ post) (d * 4 + 2) (128 + s) _ (by omega)]
  dsimp only
  rw [show (d * 4 + 2) >>> 2 = d by omega]
  rw [show (128 + s) &&& 63 = s by rw [and_mask63]; omega]
  rw [show (2 : Int) + chunksSize cs - 2 = chunksSize cs by ring]
  have hre : pre ++ (d * 4 + 2) :: (128 + s) :: (chunksBytes cs ++ post) =
      (pre ++ [d * 4 + 2, 128 + s]) ++ (chunksBytes cs ++ post) := by
    simp
  have hoff : pre.length + 2 = (pre ++ [d * 4 + 2, 128 + s]).length := by
    simp
  rw [hre, hoff, tlvLoop_chunks DataProtectionSetup.update cs hcs
    (pre ++ [d * 4 + 2, 128 + s]) post {}]
  rfl

theorem dps_roundtrip (d s : Nat) (ecpk rn : Option (List Nat))
    (h : canonical (.dataProtectionSetup d s ecpk rn) = true) :
    ∃ bb, pduEncode (.dataProtectionSetup d s ecpk rn) = .ok bb ∧ 2 ≤ bb.length ∧
      ∀ pre post, decode (pre ++ (bb ++ post)) pre.length (bb.length : Int) =
        .ok (.dataProtectionSetup d s ecpk rn) := by
  simp only [canonical, Bool.and_eq_true, decide_eq_true_eq] at h
  obtain ⟨⟨⟨hd, hs⟩, hecpk⟩, hrn⟩ := h
  cases ecpk with
  | none =>
    cases rn with
    | none =>
      refine ⟨[d * 4 + 2, 128 + s], ?_, ?_, ?_⟩
      · rw [pduEncode, DataProtectionSetup.encode]
        dsimp only
        simp only [encode_header_eq d 10 s hd (by omega) hs, bytesTruthy,
          Bool.false_eq_true, if_false, ite_false]
        norm_num
      · simp
      · intro pre post
        rw [decode.eq_def]
        rw [if_neg (by simp <;> omega)]
        rw [if_neg (by simp <;> omega)]
        rw [dif_pos (by simp <;> omega)]
        simp only [getD_shift, getD_shift0, List.cons_append, List.getD_cons_zero,
          List.getD_cons_succ, List.length_cons, List.length_append]
        have hpt : ((d * 4 + 2) * 256 + (128 + s)) >>> 6 &&& 15 = 10 := by
          rw [shr6_eq, and_mask15]
          omega
        rw [hpt]
        norm_num
        have hchunks : ∀ c ∈ ([] : List Chunk), ChunkSpec c := by
          intro c hc
          simp at hc
        have hdec := dps_decode_chunks d s hs _ hchunks pre post
        simp only [chunksBytes, chunksSize, List.append_nil, List.cons_append,
          List.nil_append, List.append_assoc] at hdec
        simp only [dpsFold, List.foldl] at hdec
        norm_num at hdec
        norm_num
        exact hdec
    | some r =>
      simp only [canonicalOptBytes, Bool.and_eq_true, Bool.not_eq_true',
        decide_eq_true_eq] at hrn
      obtain ⟨hrne, hrl⟩ := hrn
      have hrne2 : r ≠ [] := fun hh => by simp [hh] at hrne
      have hrt : bytesTruthy (some r) = true := by
        simp [bytesTruthy, hrne]
      refine ⟨[d * 4 + 2, 128 + s, 11, r.length] ++ r, ?_, ?_, ?_⟩
      · rw [pduEncode, DataProtectionSetup.encode]
        dsimp only
        simp only [encode_header_eq d 10 s hd (by omega) hs, bytesTruthy,
          Bool.false_eq_true, if_false, ite_false, hrt, if_true, ite_true,
          Option.getD_some, paramEncode_rn r hrl]
        norm_num
        simp only [if_neg hrne2]
        rfl
      · simp
      · intro pre post
        rw [decode.eq_def]
        rw [if_neg (by simp <;> omega)]
        rw [if_neg (by simp <;> omega)]
        rw [dif_pos (by simp <;> omega)]
        simp only [getD_shift, getD_shift0, List.cons_append, List.getD_cons_zero,
          List.getD_cons_succ, List.length_cons, List.length_append]
        have hpt : ((d * 4 + 2) * 256 + (128 + s)) >>> 6 &&& 15 = 10 := by
          rw [shr6_eq, and_mask15]
          omega
        rw [hpt]
        norm_num
        have hchunks : ∀ c ∈ [(⟨[11, r.length] ++ r, 11, r.length, .raw r⟩ : Chunk)],
            ChunkSpec c := by
          intro c hc
          simp only [List.mem_cons, List.not_mem_nil, or_false] at hc
          rcases hc with rfl
          exact chunkOK_rn r hrl
        have hdec := dps_decode_chunks d s hs _ hchunks pre post
        simp only [chunksBytes, chunksSize, List.append_nil, List.cons_append,
          List.nil_append, List.append_assoc] at hdec
        simp only [dpsFold, List.foldl, DataProtectionSetup.update] at hdec
        norm_num at hdec
        norm_num
        convert hdec using 2
        push_cast
        omega
  | some e =>
    simp only [canonicalOptBytes, Bool.and_eq_true, Bool.not_eq_true',
      decide_eq_true_eq] at hecpk
    obtain ⟨hene, hel⟩ := hecpk
    have hene2 : e ≠ [] := fun hh => by simp [hh] at hene
    have het : bytesTruthy (some e) = true := by
      simp [bytesTruthy, hene]
    cases rn with
    | none =>
      refine ⟨[d * 4 + 2, 128 + s, 10, e.length] ++ e, ?_, ?_, ?_⟩
      · rw [pduEncode, DataProtectionSetup.encode]
        dsimp only
        simp only [encode_header_eq d 10 s hd (by omega) hs, bytesTruthy,
          Bool.false_eq_true, if_false, ite_false, het, if_true, ite_true,
          Option.getD_some, paramEncode_ecpk e hel]
        norm_num
        simp only [if_neg hene2]
        rfl
      · simp
      · intro pre post
        rw [decode.eq_def]
        rw [if_neg (by simp <;> omega)]
        rw [if_neg (by simp <;> omega)]
        rw [dif_pos (by simp <;> omega)]
        simp only [getD_shift, getD_shift0, List.cons_append, List.getD_cons_zero,
          List.getD_cons_succ, List.length_cons, List.length_append]
        have hpt : ((d * 4 + 2) * 256 + (128 + s)) >>> 6 &&& 15 = 10 := by
          rw [shr6_eq, and_mask15]
          omega
        rw [hpt]
        norm_num
        have hchunks : ∀ c ∈ [(⟨[10, e.length] ++ e, 10, e.length, .raw e⟩ : Chunk)],
            ChunkSpec c := by
          intro c hc
          simp only [List.mem_cons, List.not_mem_nil, or_false] at hc
          rcases hc with rfl
          exact chunkOK_ecpk e hel
        have hdec := dps_decode_chunks d s hs _ hchunks pre post
        simp only [chunksBytes, chunksSize, List.append_nil, List.cons_append,
          List.nil_append, List.append_assoc] at hdec
        simp only [dpsFold, List.foldl, DataProtectionSetup.update] at hdec
        norm_num at hdec
        norm_num
        convert hdec using 2
        push_cast
        omega
    | some r =>
      simp only [canonicalOptBytes, Bool.and_eq_true, Bool.not_eq_true',
        decide_eq_true_eq] at hrn
      obtain ⟨hrne, hrl⟩ := hrn
      have hrt : bytesTruthy (some r) = true := by
        simp [bytesTruthy, hrne]
      refine ⟨[d * 4 + 2, 128 + s, 10, e.length] ++ (e ++ ([11, r.length] ++ r)), ?_, ?_, ?_⟩
      · rw [pduEncode, DataProtectionSetup.encode]
        dsimp only
        simp only [encode_header_eq d 10 s hd (by omega) hs, het, hrt, if_true, ite_true,
          Option.getD_some, paramEncode_ecpk e hel, paramEncode_rn r hrl]
        norm_num
        rfl
      · simp
      · intro pre post
        rw [decode.eq_def]
        rw [if_neg (by simp <;> omega)]
        rw [if_neg (by simp <;> omega)]
        rw [dif_pos (by simp <;> omega)]
        simp only [getD_shift, getD_shift0, List.cons_append, List.getD_cons_zero,
          List.getD_cons_succ, List.length_cons, List.length_append]
        have hpt : ((d * 4 + 2) * 256 + (128 + s)) >>> 6 &&& 15 = 10 := by
          rw [shr6_eq, and_mask15]
          omega
        rw [hpt]
        norm_num
        have hchunks : ∀ c ∈ [(⟨[10, e.length] ++ e, 10, e.length, .raw e⟩ : Chunk),
            ⟨[11, r.length] ++ r, 11, r.length, .raw r⟩], ChunkSpec c := by
          intro c hc
          simp only [List.mem_cons, List.not_mem_nil, or_false] at hc
          rcases hc with rfl | rfl
          · exact chunkOK_ecpk e hel
          · exact chunkOK_rn r hrl
        have hdec := dps_decode_chunks d s hs _ hchunks pre post
        simp only [chunksBytes, chunksSize, List.append_nil, List.cons_append,
          List.nil_append, List.append_assoc] at hdec
        simp only [dpsFold, List.foldl, DataProtectionSetup.update] at hdec
        norm_num at hdec
        norm_num
        convert hdec using 2
        push_cast
        omega

/-- The TLV chunk `Parameter.encode` produces for an SDRES entry. -/
def resChunk (r : Nat × Nat) : Chunk :=
  ⟨[9, 2, r.1, r.2], 9, 2, .pair r.1 r.2⟩

/-- The TLV chunk `Parameter.encode` produces for an SDREQ entry. -/
def reqChunk (q : Nat × List Nat) : Chunk :=
  ⟨[8, 1 + q.2.length, q.1] ++ q.2, 8, 1 + q.2.length, .req q.1 q.2⟩

def snlFold (cs : List Chunk) : SnlFields :=
  cs.foldl (fun f c => ServiceNameLookup.update f c.T c.L c.V) {}

theorem chunksBytes_append (xs ys : List Chunk) :
    chunksBytes (xs ++ ys) = chunksBytes xs ++ chunksBytes ys := by
  induction xs with
  | nil => simp [chunksBytes]
  | cons c xs ih => simp [chunksBytes, ih]

theorem snlFoldl_res (rs : List (Nat × Nat)) (f : SnlFields) :
    (rs.map resChunk).foldl (fun f c => ServiceNameLookup.update f c.T c.L c.V) f =
      { f with sdres := f.sdres ++ rs } := by
  induction rs generalizing f with
  | nil => simp
  | cons r rs ih =>
    simp only [List.map_cons, List.foldl_cons, ih]
    simp [resChunk, ServiceNameLookup.update]

theorem snlFoldl_req (qs : List (Nat × List Nat)) (f : SnlFields) :
    (qs.map reqChunk).foldl (fun f c => ServiceNameLookup.update f c.T c.L c.V) f =
      { f with sdreq := f.sdreq ++ qs } := by
  induction qs generalizing f with
  | nil => simp
  | cons q qs ih =>
    simp only [List.map_cons, List.foldl_cons, ih]
    simp [reqChunk, ServiceNameLookup.update]

theorem snlFold_eq (rs : List (Nat × Nat)) (qs : List (Nat × List Nat)) :
    snlFold (rs.map resChunk ++ qs.map reqChunk) = { sdreq := qs, sdres := rs } := by
  rw [snlFold, List.foldl_append, snlFoldl_res, snlFoldl_req]
  simp

theorem snl_encodeSdres (rs : List (Nat × Nat)) (h : ∀ r ∈ rs, r.1 ≤ 255 ∧ r.2 ≤ 255) :
    ServiceNameLookup.encodeSdres rs = .ok (chunksBytes (rs.map resChunk)) := by
  induction rs with
  | nil => rfl
  | cons r rs ih =>
    obtain ⟨tid, sap⟩ := r
    obtain ⟨h1, h2⟩ := h (tid, sap) (by simp)
    rw [ServiceNameLookup.encodeSdres, paramEncode_sdres tid sap h1 h2,
      ih (fun x hx => h x (by simp [hx]))]
    rfl

theorem snl_encodeSdreq (qs : List (Nat × List Nat))
    (h : ∀ q ∈ qs, q.1 ≤ 255 ∧ q.2.length ≤ 254) :
    ServiceNameLookup.encodeSdreq qs = .ok (chunksBytes (qs.map reqChunk)) := by
  induction qs with
  | nil => rfl
  | cons q qs ih =>
    obtain ⟨tid, sn⟩ := q
    obtain ⟨h1, h2⟩ := h (tid, sn) (by simp)
    rw [ServiceNameLookup.encodeSdreq, paramEncode_sdreq tid sn h1 h2,
      ih (fun x hx => h x (by simp [hx]))]
    rfl

theorem snl_decode_chunks (d s : Nat) (hs63 : s ≤ 63) (cs : List Chunk)
    (hcs : ∀ c ∈ cs, ChunkSpec c) (pre post : List Nat) :
    ServiceNameLookup.decode (pre ++ ((d * 4 + 2) :: (64 + s) :: (chunksBytes cs ++ post)))
      pre.length (2 + chunksSize cs) =
      .ok (.serviceNameLookup d s (snlFold cs).sdreq (snlFold cs).sdres) := by
  have hnn := chunksSize_nonneg cs
  rw [ServiceNameLookup.decode]
  rw [decode_header_at pre (chunksBytes cs ++ post) (d * 4 + 2) (64 + s) _ (by omega)]
  dsimp only
  rw [show (d * 4 + 2) >>> 2 = d by omega]
  rw [show (64 + s) &&& 63 = s by rw [and_mask63]; omega]
  rw [show (2 : Int) + chunksSize cs - 2 = chunksSize cs by ring]
  have hre : pre ++ (d * 4 + 2) :: (64 + s) :: (chunksBytes cs ++ post) =
      (pre ++ [d * 4 + 2, 64 + s]) ++ (chunksBytes cs ++ post) := by
    simp
  have hoff : pre.length + 2 = (pre ++ [d * 4 + 2, 64 + s]).length := by
    simp
  rw [hre, hoff, tlvLoop_chunks ServiceNameLookup.update cs hcs
    (pre ++ [d * 4 + 2, 64 + s]) post {}]
  rfl

theorem snl_roundtrip (d s : Nat) (sdreq : List (Nat × List Nat)) (sdres : List (Nat × Nat))
    (h : canonical (.serviceNameLookup d s sdreq sdres) = true) :
    ∃ bb, pduEncode (.serviceNameLookup d s sdreq sdres) = .ok bb ∧ 2 ≤ bb.length ∧
      ∀ pre post, decode (pre ++ (bb ++ post)) pre.length (bb.length : Int) =
        .ok (.serviceNameLookup d s sdreq sdres) := by
  simp only [canonical, Bool.and_eq_true, decide_eq_true_eq, List.all_eq_true] at h
  obtain ⟨⟨⟨hd, hs⟩, hreq⟩, hres⟩ := h
  have hreq2 : ∀ q ∈ sdreq, q.1 ≤ 255 ∧ q.2.length ≤ 254 := by
    intro q hq
    have := hreq q hq
    simpa using this
  have hres2 : ∀ r ∈ sdres, r.1 ≤ 255 ∧ r.2 ≤ 255 := by
    intro r hr
    have := hres r hr
    simpa using this
  refine ⟨(d * 4 + 2) :: (64 + s) :: (chunksBytes (sdres.map resChunk) ++
    chunksBytes (sdreq.map reqChunk)), ?_, ?_, ?_⟩
  · rw [pduEncode, ServiceNameLookup.encode]
    simp only [encode_header_eq d 9 s hd (by omega) hs, snl_encodeSdres sdres hres2,
      snl_encodeSdreq sdreq hreq2]
    rfl
  · simp
  · intro pre post
    have hchunks : ∀ c ∈ sdres.map resChunk ++ sdreq.map reqChunk, ChunkSpec c := by
      intro c hc
      rcases List.mem_append.1 hc with hc | hc
      · obtain ⟨r, hr, rfl⟩ := List.mem_map.1 hc
        exact chunkOK_sdres r.1 r.2
      · obtain ⟨q, hq, rfl⟩ := List.mem_map.1 hc
        exact chunkOK_sdreq q.1 q.2 (hreq2 q hq).2
    rw [decode.eq_def]
    rw [if_neg (by simp <;> omega)]
    rw [if_neg (by simp <;> omega)]
    rw [dif_pos (by simp <;> omega)]
    simp only [getD_shift, getD_shift0, List.cons_append, List.getD_cons_zero,
      List.getD_cons_succ, List.length_cons, List.length_append]
    have hpt : ((d * 4 + 2) * 256 + (64 + s)) >>> 6 &&& 15 = 9 := by
      rw [shr6_eq, and_mask15]
      omega
    rw [hpt]
    norm_num
    have hdec := snl_decode_chunks d s hs _ hchunks pre post
    rw [snlFold_eq] at hdec
    simp only [chunksBytes_append, List.append_assoc] at hdec
    have hnn := chunksSize_nonneg (sdres.map resChunk ++ sdreq.map reqChunk)
    have hbl := chunksBytes_length (sdres.map resChunk ++ sdreq.map reqChunk) hchunks
    rw [chunksBytes_append, List.length_append] at hbl
    norm_num
    convert hdec using 2
    push_cast
    omega

/-! ## Aggregated frames: encoded members paired with their byte strings -/

/-- The byte stream the aggregated-frame body loop produces: each member's
encoding prefixed by its 2-byte big-endian length. -/
def agfBytes : List (List Nat × PDU) → List Nat
  | [] => []
  | (b, _) :: rest => (b.length / 256) :: (b.length % 256) :: (b ++ agfBytes rest)

/-- The signed size consumed by the body loop for these members. -/
def agfSize : List (List Nat × PDU) → Int
  | [] => 0
  | (b, _) :: rest => 2 + (b.length : Int) + agfSize rest

theorem agfSize_eq (items : List (List Nat × PDU)) :
    agfSize items = ((agfBytes items).length : Int) := by
  induction items with
  | nil => simp [agfSize, agfBytes]
  | cons it rest ih =>
    obtain ⟨b, v⟩ := it
    simp only [agfSize, agfBytes, List.length_cons, List.length_append, ih]
    push_cast
    ring

theorem agf_encodeBody (items : List (List Nat × PDU))
    (h : ∀ it ∈ items, pduEncode it.2 = .ok it.1 ∧ it.1.length ≤ 65535) :
    AggregatedFrame.encodeBody (items.map Prod.snd) = .ok (agfBytes items) := by
  induction items with
  | nil => rfl
  | cons it rest ih =>
    obtain ⟨b, v⟩ := it
    obtain ⟨he, hl⟩ := h (b, v) (by simp)
    dsimp only at he hl
    rw [List.map_cons, AggregatedFrame.encodeBody, he]
    dsimp only
    rw [show packH b.length = .ok [b.length / 256, b.length % 256] from by
      rw [packH, if_pos (by omega)]]
    rw [ih (fun x hx => h x (by simp [hx]))]
    rfl

theorem agf_body_decode (items : List (List Nat × PDU))
    (h : ∀ it ∈ items, 2 ≤ it.1.length ∧ it.1.length ≤ 65535 ∧
      ∀ pre post, decode (pre ++ (it.1 ++ post)) pre.length (it.1.length : Int) = .ok it.2)
    (post : List Nat) : ∀ pre : List Nat,
    AggregatedFrame.decodeBody (pre ++ (agfBytes items ++ post)) pre.length (agfSize items) =
      .ok (items.map Prod.snd) := by
  induction items with
  | nil =>
    intro pre
    rw [AggregatedFrame.decodeBody.eq_def]
    rw [if_neg (by simp [agfSize])]
    rfl
  | cons it rest ih =>
    intro pre
    obtain ⟨b, v⟩ := it
    obtain ⟨hb2, hb65, hbdec⟩ := h (b, v) (by simp)
    dsimp only at hb2 hb65 hbdec
    have hrest : ∀ x ∈ rest, 2 ≤ x.1.length ∧ x.1.length ≤ 65535 ∧
        ∀ pre post, decode (pre ++ (x.1 ++ post)) pre.length (x.1.length : Int) = .ok x.2 :=
      fun x hx => h x (by simp [hx])
    simp only [agfBytes, List.cons_append, List.append_assoc]
    rw [AggregatedFrame.decodeBody.eq_def]
    rw [if_pos (by
      have := agfSize_eq rest
      simp only [agfSize]
      omega)]
    rw [dif_pos (by simp <;> omega)]
    simp only [getD_shift, getD_shift0, List.getD_cons_zero, List.getD_cons_succ]
    rw [show b.length / 256 * 256 + b.length % 256 = b.length by omega]
    have hd1 := hbdec (pre ++ [b.length / 256, b.length % 256]) (agfBytes rest ++ post)
    simp only [List.cons_append, List.nil_append, List.append_assoc] at hd1
    rw [show (pre ++ [b.length / 256, b.length % 256]).length = pre.length + 2 from by simp]
      at hd1
    rw [hd1]
    dsimp only
    rw [show agfSize ((b, v) :: rest) - 2 - (b.length : Int) = agfSize rest from by
      simp only [agfSize]; ring]
    have hre : pre ++ (b.length / 256) :: (b.length % 256) :: (b ++ (agfBytes rest ++ post)) =
        (pre ++ (b.length / 256) :: (b.length % 256) :: b) ++ (agfBytes rest ++ post) := by
      simp
    have hoff : pre.length + 2 + b.length =
        (pre ++ (b.length / 256) :: (b.length % 256) :: b).length := by
      simp
      omega
    rw [hre, hoff, ih hrest]
    rfl

/-- Main round-trip induction: every canonical value encodes to a byte
string that the entry-point decoder recovers exactly, from any position
and with any surrounding bytes.  The fuel `n` bounds `sizeOf` so that
aggregated-frame members can use the induction hypothesis. -/
theorem pdu_roundtrip_aux (n : Nat) : ∀ v : PDU, sizeOf v ≤ n → canonical v = true →
    ∃ b, pduEncode v = .ok b ∧ 2 ≤ b.length ∧
      ∀ pre post, decode (pre ++ (b ++ post)) pre.length (b.length : Int) = .ok v := by
  induction n with
  | zero =>
    intro v hv hc
    exfalso
    cases v <;> simp at hv
  | succ n ih =>
    intro v hv hc
    cases v with
    | symmetry d s => exact symmetry_roundtrip d s hc
    | parameterExchange d s version miu wks lto lsc dpc =>
      obtain ⟨a, b⟩ := version
      have hc2 := hc
      simp only [canonical, Bool.and_eq_true, beq_iff_eq] at hc2
      obtain ⟨⟨⟨⟨⟨⟨⟨⟨⟨hd0, hs0⟩, -⟩, -⟩, -⟩, -⟩, -⟩, -⟩, -⟩, -⟩ := hc2
      subst hd0
      subst hs0
      exact pax_roundtrip a b miu wks lto lsc dpc hc
    | aggregatedFrame d s ag =>
      have hc2 := hc
      simp only [canonical, Bool.and_eq_true, beq_iff_eq, List.all_eq_true] at hc2
      obtain ⟨⟨hd0, hs0⟩, hall⟩ := hc2
      subst hd0
      subst hs0
      simp at hv
      have hag : ∀ x ∈ ag, canonical x = true ∧ encodableLen x = true := by
        intro x hx
        have := hall ⟨x, hx⟩ (List.mem_attach _ _)
        simpa using this
      have hsz : ∀ x ∈ ag, sizeOf x ≤ n := by
        intro x hx
        have h1 := List.sizeOf_lt_of_mem hx
        omega
      have hitems : ∀ l : List PDU, (∀ x ∈ l, canonical x = true ∧ encodableLen x = true) →
          (∀ x ∈ l, sizeOf x ≤ n) →
          ∃ items : List (List Nat × PDU), items.map Prod.snd = l ∧
            ∀ it ∈ items, pduEncode it.2 = .ok it.1 ∧ 2 ≤ it.1.length ∧
              it.1.length ≤ 65535 ∧
              ∀ pre post, decode (pre ++ (it.1 ++ post)) pre.length (it.1.length : Int) =
                .ok it.2 := by
        intro l
        induction l with
        | nil =>
          intro _ _
          exact ⟨[], rfl, by simp⟩
        | cons p ps ihl =>
          intro hagl hszl
          obtain ⟨items, hmap, hprops⟩ := ihl (fun x hx => hagl x (by simp [hx]))
            (fun x hx => hszl x (by simp [hx]))
          obtain ⟨hcp, hlp⟩ := hagl p (by simp)
          obtain ⟨b, hbe, hb2, hbdec⟩ := ih p (hszl p (by simp)) hcp
          have hb65 : b.length ≤ 65535 := by
            unfold encodableLen at hlp
            rw [hbe] at hlp
            simpa using hlp
          refine ⟨(b, p) :: items, by simp [hmap], ?_⟩
          intro it hit
          rcases List.mem_cons.1 hit with rfl | hit
          · exact ⟨hbe, hb2, hb65, hbdec⟩
          · exact hprops it hit
      obtain ⟨items, hmap, hprops⟩ := hitems ag hag hsz
      refine ⟨[0, 128] ++ agfBytes items, ?_, by simp, ?_⟩
      · rw [pduEncode]
        rw [show ProtocolDataUnit.encode_header 0 2 0 = .ok [0, 128] from by
          rw [encode_header_eq 0 2 0 (by norm_num) (by norm_num) (by norm_num)]]
        dsimp only
        rw [← hmap, agf_encodeBody items
          (fun it hit => ⟨(hprops it hit).1, (hprops it hit).2.2.1⟩)]
      · intro pre post
        rw [decode.eq_def]
        rw [if_neg (by simp <;> omega)]
        rw [if_neg (by simp <;> omega)]
        rw [dif_pos (by simp <;> omega)]
        simp only [getD_shift, getD_shift0, List.cons_append, List.getD_cons_zero,
          List.getD_cons_succ, List.length_cons, List.length_append]
        rw [show ((0 : Nat) * 256 + 128) >>> 6 &&& 15 = 2 from by rw [shr6_eq, and_mask15]]
        norm_num
        rw [decode_header_at pre (agfBytes items ++ post) 0 128 _ (by push_cast; omega)]
        dsimp only
        norm_num [and_mask63]
        have hbody := agf_body_decode items
          (fun it hit =>
            ⟨(hprops it hit).2.1, (hprops it hit).2.2.1, (hprops it hit).2.2.2⟩)
          post (pre ++ [0, 128])
        simp only [List.cons_append, List.nil_append, List.append_assoc] at hbody
        have hlen2 : (pre ++ [0, 128]).length = pre.length + 2 := by simp
        rw [hlen2] at hbody
        rw [hmap] at hbody
        rw [show ((agfBytes items).length : Int) + 1 + 1 - 2 = agfSize items from by
          rw [agfSize_eq]
          ring]
        rw [hbody]
    | unnumberedInformation d s data => exact ui_roundtrip d s data hc
    | connect d s miu rw sn => exact connect_roundtrip d s miu rw sn hc
    | disconnect d s => exact disconnect_roundtrip d s hc
    | connectionComplete d s miu rw => exact cc_roundtrip d s miu rw hc
    | disconnectedMode d s reason => exact dm_roundtrip d s reason hc
    | frameReject d s flags ptype ns nr vs vr vsa vra =>
      exact absurd hc (by simp [canonical])
    | serviceNameLookup d s sdreq sdres => exact snl_roundtrip d s sdreq sdres hc
    | dataProtectionSetup d s ecpk rn => exact dps_roundtrip d s ecpk rn hc
    | information d s ns nr data =>
      cases ns with
      | none => exact absurd hc (by simp [canonical])
      | some k => exact info_roundtrip d s k nr data hc
    | receiveReady d s nr => exact rr_roundtrip d s nr hc
    | receiveNotReady d s nr => exact rnr_roundtrip d s nr hc
    | unknown ptype d s payload => exact absurd hc (by simp [canonical])

/-! ## C1: the round-trip claim -/

/-- C1 (corrected): for every canonical known-variant value `v` —
fields in range for their wire encodings, normalized so the encoder's
default-elision and unit conversions lose nothing, and excluding Frame
Reject (whose decoder misreads its byte offsets) and the unconstructible
unknown-type class — `decode` recovers `v` from `encode v` field-wise,
and `encode` reproduces `encode v` byte-for-byte from the decoded value,
i.e. the byte-level round-trip holds on `encode`'s image of canonical
values (the counterexample `c1_counterexample` shows it cannot hold for
every accepted buffer). -/
theorem c1_roundtrip (v : PDU) (h : canonical v = true) :
    ∃ b, encode v = .ok b ∧ decode b 0 (b.length : Int) = .ok v ∧
      (decode b 0 (b.length : Int)).bind encode = .ok b := by
  obtain ⟨b, he, hb2, hdec⟩ := pdu_roundtrip_aux (sizeOf v) v le_rfl h
  have hd : decode b 0 (b.length : Int) = .ok v := by
    have := hdec [] []
    simpa using this
  refine ⟨b, he, hd, ?_⟩
  rw [hd]
  exact he

/-- Witness for C1 at the concrete value `SYMM(0, 0)`. -/
theorem c1_roundtrip_witness :
    canonical (.symmetry 0 0) = true ∧
    (∃ b, encode (.symmetry 0 0) = .ok b ∧
      decode b 0 (b.length : Int) = .ok (.symmetry 0 0) ∧
      (decode b 0 (b.length : Int)).bind encode = .ok b) :=
  ⟨by simp [canonical], c1_roundtrip (.symmetry 0 0) (by simp [canonical])⟩
